import Mathlib

/-!
# Rate limiter: decision engine, rule validation and HTTP middleware

A shallow embedding of the Go package `limiter` (`limiter.go`, `rules.go`,
`middleware.go`).

Conventions of the embedding.

* Go `int` is taken to be 64 bits wide (the `amd64`/`arm64` targets), so `int`,
  `int64` and `time.Duration` all range over `[-2^63, 2^63)`.  Values are
  carried as `Int`; every arithmetic result that Go would wrap is passed
  through `wrapInt64`.
* The package-level variables `rules` and `RedisClient` become explicit
  arguments.  The counter store is an interface `CounterStore σ` over a state
  `σ`; each request returns the answer, the next store state and the list of
  store calls it made, in order.
* A Go `map[string]string` is an association list with pairwise distinct keys;
  the order of the list stands for the (unspecified) iteration order.
* The standard-library functions `strings.ToLower` and
  `textproto.CanonicalMIMEHeaderKey` are arguments (`GoLib`).
* Logging, contexts and timeouts are left out: they do not influence a result.
* The functions are modelled as sequential code.  What `mutex` does for the
  variable `rules` is modelled apart, as a step function on `SyncState` that
  interleaves the lock and variable operations of readers and of the reload.
-/

namespace Limiter

/-! ## Machine integers -/

/-- Two's complement wrap-around of a mathematical integer into `int64`. -/
def wrapInt64 (x : Int) : Int := (x + 2 ^ 63) % 2 ^ 64 - 2 ^ 63

/-- Range of the Go types `int` (64-bit targets), `int64` and `time.Duration`. -/
def isInt64 (x : Int) : Prop := -(2 ^ 63) ≤ x ∧ x < 2 ^ 63

instance (x : Int) : Decidable (isInt64 x) := by unfold isInt64; exact inferInstance

/-! ## binary64 arithmetic, as far as `time.Duration.Seconds` uses it -/

/-- A non-negative real number `num / den` (`den > 0`); the finite binary64
values that occur are of this form with `den` a power of two. -/
structure Frac where
  num : Nat
  den : Nat
  deriving DecidableEq, Repr

/-- Number of binary digits of a natural number (`0` for `0`). -/
def bitLenAux : Nat → Nat → Nat
  | 0, _ => 0
  | fuel + 1, n => if n = 0 then 0 else bitLenAux fuel (n / 2) + 1

/-- Number of binary digits of `n`. -/
def bitLen (n : Nat) : Nat := bitLenAux n n

/-- Nearest integer to `num / den`, ties to the even neighbour. -/
def roundNearestEven (num den : Nat) : Nat :=
  let f := num / den
  let r := num % den
  if 2 * r < den then f
  else if den < 2 * r then f + 1
  else if f % 2 = 0 then f else f + 1

/-- Rounding of a non-negative real to binary64 (53-bit significand, round to
nearest, ties to even).  The exponent range is not modelled: every value formed
from an `int64` duration lies between `1e-9` and `2^63`, inside the normal
range. -/
def Frac.toFloat64 (x : Frac) : Frac :=
  if x.num = 0 then ⟨0, 1⟩
  else
    -- choose `t` with `2^52 ≤ x * 2^t < 2^53`
    let t0 : Int := 52 + (bitLen x.den : Int) - (bitLen x.num : Int)
    let t : Int :=
      if x.num * 2 ^ t0.toNat < 2 ^ 52 * (x.den * 2 ^ (-t0).toNat) then t0 + 1 else t0
    let m := roundNearestEven (x.num * 2 ^ t.toNat) (x.den * 2 ^ (-t).toNat)
    ⟨m * 2 ^ (-t).toNat, 2 ^ t.toNat⟩

/-- Exact sum. -/
def Frac.add (x y : Frac) : Frac := ⟨x.num * y.den + y.num * x.den, x.den * y.den⟩

/-- Exact quotient (`y ≠ 0`). -/
def Frac.div (x y : Frac) : Frac := ⟨x.num * y.den, x.den * y.num⟩

/-- Integer part. -/
def Frac.floor (x : Frac) : Nat := x.num / x.den

/-- Magnitude of `time.Duration.Seconds` for a duration of magnitude `a` ns:
`sec := d / Second; nsec := d % Second; float64(sec) + float64(nsec)/1e9`,
each operation rounded to binary64. -/
def secondsMagnitude (a : Nat) : Frac :=
  let sec := a / 1000000000
  let nsec := a % 1000000000
  Frac.toFloat64
    (Frac.add (Frac.toFloat64 ⟨sec, 1⟩)
      (Frac.toFloat64 (Frac.div (Frac.toFloat64 ⟨nsec, 1⟩) (Frac.toFloat64 ⟨1000000000, 1⟩))))

/-- The Go expression `int(ttl.Seconds())` for a duration of `d` nanoseconds.
Go's `/` and `%` truncate toward zero, so `sec` and `nsec` carry the sign of
`d`, binary64 rounding is symmetric, and the conversion to `int` truncates
toward zero. -/
def secondsToInt (d : Int) : Int :=
  if d < 0 then -((secondsMagnitude d.natAbs).floor : Int)
  else ((secondsMagnitude d.natAbs).floor : Int)

/-- The durations `RedisClient.TTL(ctx, key).Result()` returns without error.
The client converts the integer reply `n` of the Redis command `TTL`, a number
of whole seconds, to `time.Duration(n) * time.Second`, and hands on the replies
-1 (key without expiry) and -2 (no such key) as -1 ns and -2 ns. -/
abbrev isTTLReply (d : Int) : Prop :=
  (0 ≤ d ∧ d % 1000000000 = 0) ∨ d = -1 ∨ d = -2

/-! ## Data model (`rules.go`, `limiter.go`) -/

/-- Go `type Descriptor struct`. -/
structure Descriptor where
  Key : String
  Value : String
  deriving DecidableEq, Repr

/-- Go `type RateLimit struct`. -/
structure RateLimit where
  Unit : String
  Multiplier : Int
  RequestsPerUnit : Int
  deriving DecidableEq, Repr

/-- Go `type Rule struct`; a nil `*RateLimit` is `none`. -/
structure Rule where
  Domain : String
  BasedOn : String
  Descriptors : List Descriptor
  RateLimit : Option RateLimit
  deriving DecidableEq, Repr

/-- The four sentinel errors of `limiter.go`. -/
inductive LimiterError where
  | ErrTooManyRequests
  | ErrRateLimiterCheck
  | ErrNoMatchingRule
  | ErrNoRateLimit
  deriving DecidableEq, Repr

/-- Go `type Header struct`. -/
structure Header where
  XRatelimitRemaining : Int
  XRatelimit : Int
  XRateLimitRetryAfter : Int
  deriving DecidableEq, Repr

/-- Go `type Response struct`; the embedded `*Header` may be nil, `Error` may
be nil. -/
structure Response where
  Header : Option Header
  Limited : Bool
  Error : Option LimiterError
  deriving DecidableEq, Repr

/-! ## Environment: library functions, maps, request headers, counter store -/

/-- Standard-library functions the package calls. -/
structure GoLib where
  /-- Go `strings.ToLower`. -/
  ToLower : String → String
  /-- Go `textproto.CanonicalMIMEHeaderKey`, applied by `http.Header.Get`. -/
  CanonicalMIMEHeaderKey : String → String

/-- Go `map[string]string`. -/
abbrev GoMap := List (String × String)

/-- Map read `v, ok := m[k]`. -/
def GoMap.find (m : GoMap) (k : String) : Option String := List.lookup k m

/-- Map write `m[k] = v`. -/
def GoMap.insert (m : GoMap) (k v : String) : GoMap :=
  (k, v) :: m.filter (fun e => e.1 != k)

/-- Go `http.Header`, a `map[string][]string`. -/
abbrev HttpHeader := List (String × List String)

/-- Go `http.Header.Get`: first value under the canonical form of `key`, or
the empty string. -/
def HttpHeader.Get (lib : GoLib) (h : HttpHeader) (key : String) : String :=
  match List.lookup (lib.CanonicalMIMEHeaderKey key) h with
  | some (v :: _) => v
  | _ => ""

/-- One call on the counter store. -/
inductive StoreCall where
  | Incr (key : String)
  | TTL (key : String)
  | Expire (key : String) (expiration : Int)
  deriving DecidableEq, Repr

/-- The three operations used on `RedisClient`; `none` is a non-nil error.
Durations are nanoseconds. -/
structure CounterStore (σ : Type) where
  Incr : σ → String → Option Int × σ
  TTL : σ → String → Option Int × σ
  Expire : σ → String → Int → Option Bool × σ

/-- What one call of `IsRateLimited` produces: the response, the store
afterwards, and the store calls made, in order. -/
structure Outcome (σ : Type) where
  resp : Response
  store : σ
  calls : List StoreCall

/-! ## `limiter.go` -/

/-- Go `toLowerKeys`. -/
def toLowerKeys (lib : GoLib) (requestDescriptors : GoMap) : GoMap :=
  requestDescriptors.foldl (fun lowerCaseMap e => GoMap.insert lowerCaseMap (lib.ToLower e.1) e.2) []

/-- The loop of `matchDescriptors` over the rule descriptors. -/
def matchDescriptorsLoop (requestDescriptors : GoMap) : List Descriptor → Bool
  | [] => true
  | ruleDesc :: rest =>
    match GoMap.find requestDescriptors ruleDesc.Key with
    | none => false
    | some requestValue =>
      if requestValue != ruleDesc.Value then false
      else matchDescriptorsLoop requestDescriptors rest

/-- Go `matchDescriptors`. -/
def matchDescriptors (lib : GoLib) (ruleDescriptors : List Descriptor)
    (requestDescriptors : GoMap) : Bool :=
  matchDescriptorsLoop (toLowerKeys lib requestDescriptors) ruleDescriptors

/-- Go `getRedisKey`. -/
def getRedisKey (rule : Rule) (descriptors : List Descriptor) (userID : String) : String :=
  let descriptorValues := descriptors.map (fun descriptor => descriptor.Value)
  let descriptorStr := "#".intercalate descriptorValues
  rule.Domain ++ "#" ++ descriptorStr ++ "#" ++ userID

/-- Go `getExpirationDuration`, in nanoseconds. -/
def getExpirationDuration (unit : String) (multiplier : Int) : Int :=
  if unit = "second" then wrapInt64 (1000000000 * multiplier)
  else if unit = "minute" then wrapInt64 (60000000000 * multiplier)
  else if unit = "hour" then wrapInt64 (3600000000000 * multiplier)
  else if unit = "day" then wrapInt64 (3600000000000 * 24 * multiplier)
  else 60000000000

/-- Lines 37-43 of `IsRateLimited`: header name to first value. -/
def requestDescriptors (r : HttpHeader) : GoMap :=
  r.foldl (fun descriptors e =>
    match e.2 with
    | v :: _ => GoMap.insert descriptors e.1 v
    | [] => descriptors) []

/-- Lines 55-121 of `IsRateLimited`: the body run for a matching rule whose
`RateLimit` is not nil. -/
def limitBranch {σ : Type} (S : CounterStore σ) (s : σ) (rule : Rule) (rl : RateLimit)
    (userID : String) : Outcome σ :=
  let key := getRedisKey rule rule.Descriptors userID
  let i := S.Incr s key
  match i.1 with
  | none => ⟨⟨none, false, some .ErrRateLimiterCheck⟩, i.2, [.Incr key]⟩
  | some val =>
    if val > rl.RequestsPerUnit then
      let t := S.TTL i.2 key
      match t.1 with
      | none => ⟨⟨none, false, some .ErrRateLimiterCheck⟩, t.2, [.Incr key, .TTL key]⟩
      | some ttl =>
        ⟨⟨some ⟨0, rl.RequestsPerUnit, secondsToInt ttl⟩, true, some .ErrTooManyRequests⟩,
          t.2, [.Incr key, .TTL key]⟩
    else if val = 1 then
      let duration := getExpirationDuration rl.Unit rl.Multiplier
      let e := S.Expire i.2 key duration
      ⟨⟨some ⟨wrapInt64 (rl.RequestsPerUnit - 1), rl.RequestsPerUnit, 0⟩, false, none⟩,
        e.2, [.Incr key, .Expire key duration]⟩
    else
      ⟨⟨some ⟨wrapInt64 (rl.RequestsPerUnit - val), rl.RequestsPerUnit, 0⟩, false, none⟩,
        i.2, [.Incr key]⟩

/-- The condition of line 52. -/
def ruleApplies (lib : GoLib) (domain : String) (descriptors : GoMap) (rule : Rule) : Bool :=
  rule.Domain == domain && matchDescriptors lib rule.Descriptors descriptors

/-- Lines 51-138 of `IsRateLimited`: the loop over `rules`, with the flag
`ruleMatched`, and the two returns after it. -/
def scanRules {σ : Type} (lib : GoLib) (S : CounterStore σ) (r : HttpHeader) (domain : String)
    (descriptors : GoMap) : List Rule → Bool → σ → Outcome σ
  | [], ruleMatched, s =>
    if !ruleMatched then ⟨⟨none, false, some .ErrNoMatchingRule⟩, s, []⟩
    else ⟨⟨none, false, some .ErrNoRateLimit⟩, s, []⟩
  | rule :: rest, ruleMatched, s =>
    if ruleApplies lib domain descriptors rule then
      match rule.RateLimit with
      | some rl => limitBranch S s rule rl (HttpHeader.Get lib r rule.BasedOn)
      | none => scanRules lib S r domain descriptors rest true s
    else scanRules lib S r domain descriptors rest ruleMatched s

/-- Go `IsRateLimited`. -/
def IsRateLimited {σ : Type} (lib : GoLib) (S : CounterStore σ) (rules : List Rule) (s : σ)
    (r : HttpHeader) : Outcome σ :=
  scanRules lib S r (HttpHeader.Get lib r "domain") (requestDescriptors r) rules false s

/-- The condition of line 52 for request `r`: `domain` and `descriptors` are
computed from the request as in lines 36-43. -/
def requestMatches (lib : GoLib) (r : HttpHeader) (rule : Rule) : Bool :=
  ruleApplies lib (HttpHeader.Get lib r "domain") (requestDescriptors r) rule

/-- The rule at which the loop of `IsRateLimited` stops, with its rate-limit
block: the first rule, in rule-set order, that satisfies the condition of
line 52 and whose `RateLimit` is not nil. -/
def selectedRule (lib : GoLib) (rules : List Rule) (r : HttpHeader) : Option (Rule × RateLimit) :=
  rules.findSome? (fun rule =>
    if requestMatches lib r rule then rule.RateLimit.map (fun rl => (rule, rl)) else none)

/-- The counter key `IsRateLimited` uses for `rule` on request `r` (line 56). -/
def counterKey (lib : GoLib) (rule : Rule) (r : HttpHeader) : String :=
  getRedisKey rule rule.Descriptors (HttpHeader.Get lib r rule.BasedOn)

/-! ## `rules.go` -/

/-- The inner loop of `validateRules` over the descriptors of one rule. -/
def validateDescriptors (domain : String) : List Descriptor → Option String
  | [] => none
  | descriptor :: rest =>
    if descriptor.Key = "" ∨ descriptor.Value = "" then
      some ("key and value are required for descriptor in domain " ++ domain)
    else validateDescriptors domain rest

/-- The checks of `validateRules` on a non-nil `RateLimit`. -/
def validateRateLimit (domain : String) (rl : RateLimit) : Option String :=
  if rl.Multiplier ≤ 0 then
    some ("multiplier must be greater than 0 in rate limit for domain " ++ domain)
  else if rl.Unit = "" then
    some ("unit is required for rate limit in domain " ++ domain)
  else if rl.RequestsPerUnit ≤ 0 then
    some ("requests_per_unit must be greater than 0 in rate limit for domain " ++ domain)
  else none

/-- Go `validateRules`; `none` is the nil error, `some msg` an error. -/
def validateRules : List Rule → Option String
  | [] => none
  | rule :: rest =>
    if rule.Domain = "" then some "domain is required for rate limiting rule"
    else if rule.BasedOn = "" then
      some ("based_on is required for rate limit in domain " ++ rule.Domain)
    else if rule.Descriptors.length = 0 then
      some ("at least one descriptor is required for rate limiting rule in domain "
        ++ rule.Domain)
    else
      match validateDescriptors rule.Domain rule.Descriptors with
      | some err => some err
      | none =>
        match rule.RateLimit with
        | some rl =>
          match validateRateLimit rule.Domain rl with
          | some err => some err
          | none => validateRules rest
        | none => validateRules rest

/-- Go `LoadRules`, as a function of the result of `os.ReadFile`, of
`yaml.Unmarshal` and of the current value of the package variable `rules`.
Returns the error (`none` for nil) and the value of `rules` afterwards. -/
def LoadRules {α : Type} (readFile : Except String α)
    (unmarshal : α → Except String (List Rule)) (rules : List Rule) :
    Option String × List Rule :=
  match readFile with
  | .error err => (some ("failed to read file: " ++ err), rules)
  | .ok file =>
    match unmarshal file with
    | .error err => (some ("failed to unmarshal YAML: " ++ err), rules)
    | .ok updatedRules =>
      match validateRules updatedRules with
      | some err => (some ("failed to validate rules: " ++ err), rules)
      | none => (none, updatedRules)

/-! ## `middleware.go` -/

/-- What the handler does to the response writer and the downstream handler. -/
inductive Effect where
  /-- Go `next.ServeHTTP(w, r)`. -/
  | ServeNext
  /-- Go `w.Header().Set(name, value)`. -/
  | SetHeader (name value : String)
  /-- Go `http.Error(w, body, code)`. -/
  | HttpError (body : String) (code : Nat)
  deriving DecidableEq, Repr

/-- One run of the handler: the effects in order, and whether the run ended in
a runtime panic (nil pointer dereference). -/
structure HandlerRun where
  effects : List Effect
  panicked : Bool
  deriving DecidableEq, Repr

/-- Go `fmt.Sprintf("%d", n)`. -/
def fmtInt (n : Int) : String := toString n

/-- The three `w.Header().Set` statements (lines 30-32 and 40-42).  The
argument of the first one reads a field through `resp.Header`; when that
pointer is nil the read panics before any header is set. -/
def setRateLimitHeaders (header : Option Header) (done : List Effect)
    (continuation : List Effect) : HandlerRun :=
  match header with
  | none => ⟨done, true⟩
  | some h =>
    ⟨done ++
      [.SetHeader "X-Ratelimit-Remaining" (fmtInt h.XRatelimitRemaining),
       .SetHeader "X-Ratelimit" (fmtInt h.XRatelimit),
       .SetHeader "X-Ratelimit-Retry-After" (fmtInt h.XRateLimitRetryAfter)] ++ continuation,
     false⟩

/-- The handler returned by `RateLimiterMiddleware`, from the point where
`resp := IsRateLimited(r)` is known. -/
def handleResponse (resp : Response) : HandlerRun :=
  match resp.Error with
  | some err =>
    -- `if errors.Is(resp.Error, ErrNoMatchingRule) { next.ServeHTTP(w, r) }`
    let e1 : List Effect := if err = .ErrNoMatchingRule then [.ServeNext] else []
    -- `if errors.Is(resp.Error, ErrNoRateLimit) { next.ServeHTTP(w, r) }`
    let e2 : List Effect := if err = .ErrNoRateLimit then e1 ++ [.ServeNext] else e1
    if err = .ErrRateLimiterCheck then
      ⟨e2 ++ [.HttpError "Internal Server Error" 500], false⟩
    else if err = .ErrTooManyRequests then
      setRateLimitHeaders resp.Header e2 [.HttpError "Too Many Requests" 429]
    else
      -- no `return` was reached: control leaves the `if resp.Error != nil` block
      setRateLimitHeaders resp.Header e2 [.ServeNext]
  | none => setRateLimitHeaders resp.Header [] [.ServeNext]

/-- Go `RateLimiterMiddleware(next)` applied to one request: the run of the
handler and the counter store afterwards. -/
def RateLimiterMiddleware {σ : Type} (lib : GoLib) (S : CounterStore σ) (rules : List Rule)
    (s : σ) (r : HttpHeader) : HandlerRun × σ :=
  let out := IsRateLimited lib S rules s r
  (handleResponse out.resp, out.store)

/-- Number of calls of the downstream handler in a run. -/
def HandlerRun.nextCalls (run : HandlerRun) : Nat := run.effects.count .ServeNext

/-- Names of the headers set in a run. -/
def HandlerRun.headersSet (run : HandlerRun) : List String :=
  run.effects.filterMap (fun e => match e with | .SetHeader name _ => some name | _ => none)

/-- Status codes written by `http.Error` in a run. -/
def HandlerRun.statuses (run : HandlerRun) : List Nat :=
  run.effects.filterMap (fun e => match e with | .HttpError _ code => some code | _ => none)

/-! ## A counter store that is a map from key to counter -/

/-- Store state: key to integer counter. -/
abbrev CounterMap := List (String × Int)

/-- The counter store as a map with atomic increment (`Incr` creates an absent
key at 1 and returns the value after the increment), in which no call fails and
no time passes between calls.  `Expire` with a positive duration leaves the
counters alone; with a non-positive duration the store deletes the key at once
(Redis `EXPIRE` with a non-positive timeout).  Its reply tells whether the key
existed.  `TTL` answers `ttlOf key`. -/
def mapStore (ttlOf : String → Int) : CounterStore CounterMap where
  Incr := fun m key =>
    match List.lookup key m with
    | some v => (some (v + 1), (key, v + 1) :: m.filter (fun e => e.1 != key))
    | none => (some 1, (key, 1) :: m)
  TTL := fun m key => (some (ttlOf key), m)
  Expire := fun m key expiration =>
    if expiration ≤ 0 then (some (List.lookup key m).isSome, m.filter (fun e => e.1 != key))
    else (some (List.lookup key m).isSome, m)

/-- Value of the counter under `key`; an absent key counts as 0. -/
def counterValue (m : CounterMap) (key : String) : Int := (List.lookup key m).getD 0

/-- Responses of `n` consecutive calls of `IsRateLimited` with the same request,
each on the store the previous one left. -/
def serveRepeated {σ : Type} (lib : GoLib) (S : CounterStore σ) (rules : List Rule)
    (r : HttpHeader) : Nat → σ → List Response
  | 0, _ => []
  | n + 1, s =>
    let out := IsRateLimited lib S rules s r
    out.resp :: serveRepeated lib S rules r n out.store

/-! ## Concrete instances used in examples -/

/-- ASCII lower-casing, the restriction of `strings.ToLower` to ASCII. -/
def asciiToLower (s : String) : String := String.mk (s.data.map Char.toLower)

/-- Upper-case the first letter and every letter after a hyphen, lower-case
the others: `textproto.CanonicalMIMEHeaderKey` on header names made of ASCII
letters, digits, `-` and `_`. -/
def asciiCanonicalAux : Bool → List Char → List Char
  | _, [] => []
  | upper, c :: cs =>
    (if upper then c.toUpper else c.toLower) :: asciiCanonicalAux (c == '-') cs

/-- See `asciiCanonicalAux`. -/
def asciiCanonical (s : String) : String := String.mk (asciiCanonicalAux true s.data)

/-- The library functions on ASCII strings. -/
def asciiLib : GoLib := ⟨asciiToLower, asciiCanonical⟩

/-- A request as the `net/http` server delivers it: header names in canonical
form, one value each. -/
def mkRequest (fields : List (String × String)) : HttpHeader :=
  fields.map (fun f => (asciiCanonical f.1, [f.2]))

/-- The rule of scenario S1: `auth` / `user_id` / `(endpoint, login)`, three
requests per minute. -/
def ruleS1 : Rule :=
  ⟨"auth", "user_id", [⟨"endpoint", "login"⟩], some ⟨"minute", 1, 3⟩⟩

/-- The rule of `ruleS1` without its `rate_limit` block. -/
def ruleNoLimit : Rule := ⟨"auth", "user_id", [⟨"endpoint", "login"⟩], none⟩

/-- The request of scenario S1. -/
def requestS1 : HttpHeader :=
  mkRequest [("domain", "auth"), ("endpoint", "login"), ("user_id", "alice")]

/-- The rule of `ruleS1` with a window of 9223372037 seconds. -/
def ruleHugeWindow : Rule :=
  ⟨"auth", "user_id", [⟨"endpoint", "login"⟩], some ⟨"second", 9223372037, 3⟩⟩

/-- The rule of `ruleS1` with unit `week`, multiplier 1 and one request per unit. -/
def ruleWeek : Rule :=
  ⟨"auth", "user_id", [⟨"endpoint", "login"⟩], some ⟨"week", 1, 1⟩⟩

/-- The request of scenario S3: domain `other`. -/
def requestOther : HttpHeader :=
  mkRequest [("domain", "other"), ("endpoint", "login"), ("user_id", "alice")]

/-! ## Reference definitions, in the words of the specification -/

/-- The strings of a list joined by a separator: `a`, `a sep b`, `a sep b sep c`,
and so on (the format `domain#v1#...#vn#identity` of the counter key). -/
def joinedBy (sep : String) : List String → String
  | [] => ""
  | [a] => a
  | a :: b :: rest => a ++ sep ++ joinedBy sep (b :: rest)

/-- The rule matches the request, in the words of the matcher's definition:
`rule.domain` equals the request's `domain` attribute and, for every descriptor
of the rule, the request's attribute map with lower-cased keys contains
`descriptor.key` with a value exactly equal to `descriptor.value`. -/
abbrev matchesReference (lib : GoLib) (r : HttpHeader) (rule : Rule) : Prop :=
  rule.Domain = HttpHeader.Get lib r "domain"
    ∧ ∀ d ∈ rule.Descriptors,
        GoMap.find (toLowerKeys lib (requestDescriptors r)) d.Key = some d.Value

/-- The character of the decimal digit `d`, for `d < 10`: `0` is U+0030. -/
def decimalDigit (d : Nat) : Char := Char.ofNat (48 + d)

/-- The decimal digits of a natural number, most significant first, without
leading zero; the first argument bounds the number of digits. -/
def decimalNat : Nat → Nat → List Char
  | 0, _ => []
  | fuel + 1, n =>
    if n < 10 then [decimalDigit n]
    else decimalNat fuel (n / 10) ++ [decimalDigit (n % 10)]

/-- The decimal encoding of an integer in the sense of the specification,
written out digit by digit and independent of `fmtInt`: a minus sign for a
negative number, then the decimal digits of its absolute value. -/
def decimalEncoding (n : Int) : String :=
  if n < 0 then String.mk ('-' :: decimalNat (n.natAbs + 1) n.natAbs)
  else String.mk (decimalNat (n.natAbs + 1) n.natAbs)

/-! ## Lock discipline of the rule set (`limiter.go:33-51`, `rules.go:32-52`) -/

/-- The package variable `rules` together with the state of `mutex`
(a `sync.RWMutex`): the number of read locks held and whether the write lock
is held. -/
structure SyncState where
  rules : List Rule
  readers : Nat
  writing : Bool
  deriving DecidableEq, Repr

/-- The operations on `mutex` and on the variable `rules`. -/
inductive SyncOp where
  | RLock
  | RUnlock
  | Lock
  | Unlock
  /-- Evaluation of the range expression of `for _, rule := range rules`. -/
  | ReadRules
  /-- The assignment `rules = updatedRules`. -/
  | WriteRules (updatedRules : List Rule)
  deriving DecidableEq, Repr

/-- One operation; `none` when the operation has to wait.  `RLock` waits while
the write lock is held, `Lock` waits while any lock is held; reads and writes
of the variable never wait. -/
def SyncState.step (st : SyncState) : SyncOp → Option SyncState
  | .RLock => if st.writing then none else some { st with readers := st.readers + 1 }
  | .RUnlock => some { st with readers := st.readers - 1 }
  | .Lock => if st.writing || st.readers != 0 then none else some { st with writing := true }
  | .Unlock => some { st with writing := false }
  | .ReadRules => some st
  | .WriteRules updatedRules => some { st with rules := updatedRules }

/-- A sequence of operations, in the order in which the scheduler interleaves
them; `none` when one of them has to wait. -/
def SyncState.run (st : SyncState) : List SyncOp → Option SyncState
  | [] => some st
  | op :: rest =>
    match st.step op with
    | none => none
    | some st2 => st2.run rest

/-- The operations of `IsRateLimited` before its loop: `mutex.RLock()` (line 45)
and the evaluation of `rules` (line 51). -/
def IsRateLimitedEnter : List SyncOp := [.RLock, .ReadRules]

/-- The operation of `IsRateLimited` at its return: the deferred
`mutex.RUnlock()` (line 46). -/
def IsRateLimitedLeave : List SyncOp := [.RUnlock]

/-- The operations of a successful `LoadRules`: the assignment of line 49.
The function calls neither `mutex.Lock` nor `mutex.Unlock`. -/
def LoadRulesOps (updatedRules : List Rule) : List SyncOp := [.WriteRules updatedRules]

/-! ## More concrete instances -/

/-- A counter store that is unreachable: every call fails. -/
def downStore : CounterStore Unit :=
  ⟨fun s _ => (none, s), fun s _ => (none, s), fun s _ _ => (none, s)⟩

/-- A counter store on which `Incr` answers 4 and `TTL` fails. -/
def ttlDownStore : CounterStore Unit :=
  ⟨fun s _ => (some 4, s), fun s _ => (none, s), fun s _ _ => (some true, s)⟩

/-- The request of scenario S2 for the second identity. -/
def requestBob : HttpHeader :=
  mkRequest [("domain", "auth"), ("endpoint", "login"), ("user_id", "bob")]

/-- A rule with the two descriptor values `login` and `v2`. -/
def ruleTwoValues : Rule :=
  ⟨"auth", "user_id", [⟨"endpoint", "login"⟩, ⟨"version", "v2"⟩], some ⟨"minute", 1, 3⟩⟩

/-- A rule with the single descriptor value `login#v2`. -/
def ruleHashValue : Rule :=
  ⟨"auth", "user_id", [⟨"endpoint", "login#v2"⟩], some ⟨"minute", 1, 3⟩⟩

/-! ## binary64 rounding: `int(ttl.Seconds())` is truncation below 2^23 seconds -/

theorem bitLenAux_zero (fuel : Nat) : bitLenAux fuel 0 = 0 := by
  cases fuel <;> simp [bitLenAux]

theorem bitLenAux_bounds (fuel : Nat) : ∀ n : Nat, n ≤ fuel → 0 < n →
    2 ^ bitLenAux fuel n ≤ 2 * n ∧ n < 2 ^ bitLenAux fuel n := by
  induction fuel with
  | zero => intro n h1 h2; omega
  | succ fuel ih =>
    intro n hn hpos
    have hne : n ≠ 0 := by omega
    simp only [bitLenAux, hne, if_false]
    by_cases h2 : n / 2 = 0
    · have h1 : n = 1 := by omega
      subst h1
      simp [bitLenAux_zero]
    · have := ih (n / 2) (by omega) (by omega)
      rw [pow_succ]
      omega

theorem bitLen_bounds (n : Nat) (h : 0 < n) : 2 ^ bitLen n ≤ 2 * n ∧ n < 2 ^ bitLen n :=
  bitLenAux_bounds n n (le_refl n) h

theorem roundNearestEven_bounds (n d : Nat) (hd : 0 < d) :
    2 * (roundNearestEven n d * d) ≤ 2 * n + d ∧ 2 * n ≤ 2 * (roundNearestEven n d * d) + d := by
  have h1 := Nat.div_add_mod n d
  have h2 := Nat.mod_lt n hd
  have h3 : (n / d + 1) * d = d * (n / d) + d := by ring
  have h4 : n / d * d = d * (n / d) := by ring
  unfold roundNearestEven
  simp only []
  split_ifs <;> omega

end Limiter

namespace Limiter

theorem toFloat64_eq (p q : Nat) (hp : 0 < p) (hb : bitLen p ≤ bitLen q + 52) :
    Frac.toFloat64 ⟨p, q⟩ =
      if p * 2 ^ (52 + bitLen q - bitLen p) < 2 ^ 52 * q then
        ⟨roundNearestEven (p * 2 ^ (52 + bitLen q - bitLen p + 1)) q,
          2 ^ (52 + bitLen q - bitLen p + 1)⟩
      else
        ⟨roundNearestEven (p * 2 ^ (52 + bitLen q - bitLen p)) q,
          2 ^ (52 + bitLen q - bitLen p)⟩ := by
  have hne : p ≠ 0 := by omega
  have e1 : ((52 : Int) + (bitLen q : Int) - (bitLen p : Int)).toNat
      = 52 + bitLen q - bitLen p := by omega
  have e2 : (-((52 : Int) + (bitLen q : Int) - (bitLen p : Int))).toNat = 0 := by omega
  have e3 : ((52 : Int) + (bitLen q : Int) - (bitLen p : Int) + 1).toNat
      = 52 + bitLen q - bitLen p + 1 := by omega
  have e4 : (-((52 : Int) + (bitLen q : Int) - (bitLen p : Int) + 1)).toNat = 0 := by omega
  unfold Frac.toFloat64
  simp only [hne, if_false, e1, e2, pow_zero, mul_one]
  by_cases hc : p * 2 ^ (52 + bitLen q - bitLen p) < 2 ^ 52 * q
  · simp only [hc, if_true, e3, e4, pow_zero, mul_one]
  · simp only [hc, if_false, e1, e2, pow_zero, mul_one]

theorem toFloat64_spec (p q : Nat) (hp : 0 < p) (hq : 0 < q) (hlt : p < q * 2 ^ 52) :
    ∃ t m : Nat, Frac.toFloat64 ⟨p, q⟩ = ⟨m, 2 ^ t⟩ ∧ 2 ^ 52 * q ≤ p * 2 ^ t
      ∧ p * 2 ^ t < 2 ^ 53 * q ∧ 2 * (m * q) ≤ 2 * (p * 2 ^ t) + q
      ∧ 2 * (p * 2 ^ t) ≤ 2 * (m * q) + q := by
  obtain ⟨hp1, hp2⟩ := bitLen_bounds p hp
  obtain ⟨hq1, hq2⟩ := bitLen_bounds q hq
  have hb : bitLen p ≤ bitLen q + 52 := by
    have h1 : 2 ^ bitLen p < 2 ^ (bitLen q + 53) := by
      have h2 : 2 ^ (bitLen q + 53) = 2 * (2 ^ bitLen q * 2 ^ 52) := by
        rw [pow_add]; norm_num; ring
      have h3 : q * 2 ^ 52 < 2 ^ bitLen q * 2 ^ 52 :=
        Nat.mul_lt_mul_of_pos_right hq2 (by norm_num)
      omega
    have := (Nat.pow_lt_pow_iff_right (by norm_num : 1 < 2)).mp h1
    omega
  have hpow : 2 ^ bitLen p * 2 ^ (52 + bitLen q - bitLen p) = 2 ^ 52 * 2 ^ bitLen q := by
    rw [← pow_add, ← pow_add]
    congr 1
    omega
  -- bounds on `p * 2 ^ a`
  have hlo : 2 ^ 52 * 2 ^ bitLen q ≤ 2 * (p * 2 ^ (52 + bitLen q - bitLen p)) := by
    rw [← hpow]
    have := Nat.mul_le_mul_right (2 ^ (52 + bitLen q - bitLen p)) hp1
    calc 2 ^ bitLen p * 2 ^ (52 + bitLen q - bitLen p)
        ≤ 2 * p * 2 ^ (52 + bitLen q - bitLen p) := this
      _ = 2 * (p * 2 ^ (52 + bitLen q - bitLen p)) := by ring
  have hhi : p * 2 ^ (52 + bitLen q - bitLen p) < 2 ^ 52 * 2 ^ bitLen q := by
    rw [← hpow]
    exact Nat.mul_lt_mul_of_pos_right hp2 (by positivity)
  have h52q : 2 ^ 52 * q < 2 ^ 52 * 2 ^ bitLen q :=
    Nat.mul_lt_mul_of_pos_left hq2 (by norm_num)
  have h52q2 : 2 ^ 52 * 2 ^ bitLen q ≤ 2 ^ 53 * q := by
    have := Nat.mul_le_mul_left (2 ^ 52) hq1
    calc 2 ^ 52 * 2 ^ bitLen q ≤ 2 ^ 52 * (2 * q) := this
      _ = 2 ^ 53 * q := by ring
  rw [toFloat64_eq p q hp hb]
  by_cases hc : p * 2 ^ (52 + bitLen q - bitLen p) < 2 ^ 52 * q
  · rw [if_pos hc]
    have hr := roundNearestEven_bounds (p * 2 ^ (52 + bitLen q - bitLen p + 1)) q hq
    have hs : p * 2 ^ (52 + bitLen q - bitLen p + 1)
        = 2 * (p * 2 ^ (52 + bitLen q - bitLen p)) := by rw [pow_succ]; ring
    refine ⟨52 + bitLen q - bitLen p + 1, _, rfl, ?_, ?_, hr.1, hr.2⟩
    · rw [hs]; omega
    · rw [hs]
      have : 2 ^ 53 * q = 2 * (2 ^ 52 * q) := by ring
      omega
  · rw [if_neg hc]
    have hr := roundNearestEven_bounds (p * 2 ^ (52 + bitLen q - bitLen p)) q hq
    refine ⟨52 + bitLen q - bitLen p, _, rfl, ?_, ?_, hr.1, hr.2⟩
    · omega
    · omega

theorem toFloat64_nat (k : Nat) (hk : k < 2 ^ 52) :
    ∃ t : Nat, Frac.toFloat64 ⟨k, 1⟩ = ⟨k * 2 ^ t, 2 ^ t⟩ := by
  by_cases h0 : k = 0
  · subst h0
    exact ⟨0, by simp [Frac.toFloat64]⟩
  · obtain ⟨t, m, he, -, -, h1, h2⟩ := toFloat64_spec k 1 (by omega) (by norm_num) (by omega)
    refine ⟨t, ?_⟩
    have : m = k * 2 ^ t := by omega
    rw [he, this]

end Limiter

namespace Limiter

theorem floor_core (S T m U M : Nat) (hT : 0 < T) (hU : 0 < U) (hS : S + 1 ≤ 2 ^ 23)
    (h1 : 2 ^ 30 * m ≤ (2 ^ 30 - 1) * T)
    (h3 : 2 ^ 52 * T ≤ (S * T + m) * U)
    (h4 : 2 * (M * T) ≤ 2 * ((S * T + m) * U) + T)
    (h5 : 2 * ((S * T + m) * U) ≤ 2 * (M * T) + T) :
    M / U = S := by
  have hmT : m < T := by omega
  have hST : S * T ≤ (2 ^ 23 - 1) * T := Nat.mul_le_mul_right T (by omega)
  have hUlow : 2 ^ 29 < U := by
    by_contra hle
    have h6 : (S * T + m) * U ≤ (S * T + m) * 2 ^ 29 := Nat.mul_le_mul_left _ (by omega)
    omega
  have hlo : S * U ≤ M := by
    by_contra hlt
    have h6 : (M + 1) * T ≤ S * U * T := Nat.mul_le_mul_right T (by omega)
    have h7 : (S * T + m) * U = S * U * T + m * U := by ring
    have h8 : (M + 1) * T = M * T + T := by ring
    omega
  have hhi : M < (S + 1) * U := by
    by_contra hge
    have h6 : (S + 1) * U * T ≤ M * T := Nat.mul_le_mul_right T (by omega)
    obtain ⟨D, hD⟩ : ∃ D, T = m + D := ⟨T - m, by omega⟩
    have hD1 : 1 ≤ D := by omega
    have h7 : (S * T + m) * U = S * U * T + m * U := by ring
    have h8 : (S + 1) * U * T = S * U * T + (m * U + U * D) := by rw [hD]; ring
    have h9 : (2 ^ 29 + 1) * D ≤ U * D := Nat.mul_le_mul_right D (by omega)
    omega
  exact Nat.div_eq_of_lt_le (by simpa [Nat.mul_comm] using hlo)
    (by simpa [Nat.mul_comm, Nat.succ_eq_add_one] using hhi)

end Limiter

namespace Limiter

theorem toFloat64_fraction (N tb tc : Nat) (hN : N < 1000000000) :
    ∃ m T : Nat, Frac.toFloat64 ⟨N * 2 ^ tb * 2 ^ tc, 2 ^ tb * (1000000000 * 2 ^ tc)⟩ = ⟨m, T⟩
      ∧ 0 < T ∧ 2 ^ 30 * m ≤ (2 ^ 30 - 1) * T := by
  by_cases h0 : N = 0
  · subst h0
    exact ⟨0, 1, by simp [Frac.toFloat64], by norm_num, by norm_num⟩
  · have hK : 0 < 2 ^ tb * 2 ^ tc := by positivity
    have hp : N * 2 ^ tb * 2 ^ tc = 2 ^ tb * 2 ^ tc * N := by ring
    have hq : 2 ^ tb * (1000000000 * 2 ^ tc) = 2 ^ tb * 2 ^ tc * 1000000000 := by ring
    rw [hp, hq]
    obtain ⟨t, m, he, h3, -, h4, -⟩ := toFloat64_spec (2 ^ tb * 2 ^ tc * N)
      (2 ^ tb * 2 ^ tc * 1000000000) (Nat.mul_pos hK (by omega)) (by positivity)
      (by
        have : 2 ^ tb * 2 ^ tc * N < 2 ^ tb * 2 ^ tc * 1000000000 :=
          Nat.mul_lt_mul_of_pos_left hN hK
        omega)
    refine ⟨m, 2 ^ t, he, by positivity, ?_⟩
    have h3c : 2 ^ 52 * 1000000000 ≤ N * 2 ^ t := by
      apply Nat.le_of_mul_le_mul_left _ hK
      calc 2 ^ tb * 2 ^ tc * (2 ^ 52 * 1000000000)
          = 2 ^ 52 * (2 ^ tb * 2 ^ tc * 1000000000) := by ring
        _ ≤ 2 ^ tb * 2 ^ tc * N * 2 ^ t := h3
        _ = 2 ^ tb * 2 ^ tc * (N * 2 ^ t) := by ring
    have h4c : 2 * (m * 1000000000) ≤ 2 * (N * 2 ^ t) + 1000000000 := by
      apply Nat.le_of_mul_le_mul_left _ hK
      calc 2 ^ tb * 2 ^ tc * (2 * (m * 1000000000))
          = 2 * (m * (2 ^ tb * 2 ^ tc * 1000000000)) := by ring
        _ ≤ 2 * (2 ^ tb * 2 ^ tc * N * 2 ^ t) + 2 ^ tb * 2 ^ tc * 1000000000 := h4
        _ = 2 ^ tb * 2 ^ tc * (2 * (N * 2 ^ t) + 1000000000) := by ring
    have hN2 : N * 2 ^ t ≤ 999999999 * 2 ^ t := Nat.mul_le_mul_right _ (by omega)
    omega

theorem secondsMagnitude_floor (a : Nat) (ha : a < 2 ^ 23 * 1000000000) :
    (secondsMagnitude a).floor = a / 1000000000 := by
  have hS : a / 1000000000 + 1 ≤ 2 ^ 23 := by
    have := (Nat.div_lt_iff_lt_mul (by norm_num : 0 < 1000000000)).mpr ha
    omega
  have hN : a % 1000000000 < 1000000000 := Nat.mod_lt _ (by norm_num)
  unfold secondsMagnitude
  simp only []
  generalize a / 1000000000 = S at hS ⊢
  generalize a % 1000000000 = N at hN ⊢
  obtain ⟨ta, hA⟩ := toFloat64_nat S (by omega)
  obtain ⟨tb, hB⟩ := toFloat64_nat N (by omega)
  obtain ⟨tc, hC⟩ := toFloat64_nat 1000000000 (by norm_num)
  rw [hA, hB, hC]
  simp only [Frac.div]
  obtain ⟨m, T, hE, hT, h1⟩ := toFloat64_fraction N tb tc hN
  rw [hE]
  simp only [Frac.add]
  have hW : 0 < 2 ^ ta := by positivity
  have hmT : m < T := by omega
  by_cases h0 : S * 2 ^ ta * T + m * 2 ^ ta = 0
  · have hS0 : S = 0 := by
      by_contra hne
      have : 0 < S * 2 ^ ta * T := by positivity
      omega
    rw [h0, hS0]
    simp [Frac.toFloat64, Frac.floor]
  · have hST : S * T ≤ (2 ^ 23 - 1) * T := Nat.mul_le_mul_right T (by omega)
    have hplt : S * 2 ^ ta * T + m * 2 ^ ta < 2 ^ ta * T * 2 ^ 52 := by
      have e1 : S * 2 ^ ta * T + m * 2 ^ ta = 2 ^ ta * (S * T + m) := by ring
      have e2 : 2 ^ ta * T * 2 ^ 52 = 2 ^ ta * (2 ^ 52 * T) := by ring
      rw [e1, e2]
      exact Nat.mul_lt_mul_of_pos_left (by omega) hW
    obtain ⟨u, M, he, h3, -, h4, h5⟩ := toFloat64_spec (S * 2 ^ ta * T + m * 2 ^ ta)
      (2 ^ ta * T) (by omega) (by positivity) hplt
    rw [he]
    simp only [Frac.floor]
    apply floor_core S T m (2 ^ u) M hT (by positivity) hS h1
    · apply Nat.le_of_mul_le_mul_left _ hW
      calc 2 ^ ta * (2 ^ 52 * T) = 2 ^ 52 * (2 ^ ta * T) := by ring
        _ ≤ (S * 2 ^ ta * T + m * 2 ^ ta) * 2 ^ u := h3
        _ = 2 ^ ta * ((S * T + m) * 2 ^ u) := by ring
    · apply Nat.le_of_mul_le_mul_left _ hW
      calc 2 ^ ta * (2 * (M * T)) = 2 * (M * (2 ^ ta * T)) := by ring
        _ ≤ 2 * ((S * 2 ^ ta * T + m * 2 ^ ta) * 2 ^ u) + 2 ^ ta * T := h4
        _ = 2 ^ ta * (2 * ((S * T + m) * 2 ^ u) + T) := by ring
    · apply Nat.le_of_mul_le_mul_left _ hW
      calc 2 ^ ta * (2 * ((S * T + m) * 2 ^ u))
          = 2 * ((S * 2 ^ ta * T + m * 2 ^ ta) * 2 ^ u) := by ring
        _ ≤ 2 * (M * (2 ^ ta * T)) + 2 ^ ta * T := h5
        _ = 2 ^ ta * (2 * (M * T) + T) := by ring

/-- Below 2^23 seconds in magnitude, `int(ttl.Seconds())` is the number of whole
seconds in `ttl`, rounded toward zero. -/
theorem secondsToInt_eq_truncation (d : Int) (h1 : -(2 ^ 23 * 1000000000) < d)
    (h2 : d < 2 ^ 23 * 1000000000) :
    (0 ≤ d → secondsToInt d = d / 1000000000)
      ∧ (d < 0 → secondsToInt d = -((-d) / 1000000000)) := by
  have hfl := secondsMagnitude_floor d.natAbs (by omega)
  constructor
  · intro hd
    unfold secondsToInt
    rw [if_neg (by omega), hfl]
    omega
  · intro hd
    unfold secondsToInt
    rw [if_pos hd, hfl]
    omega

/-- On a duration that is not a whole number of seconds the conversion
truncates: one and a half seconds give 1.  The store client returns no such
duration. -/
theorem secondsToInt_truncates_fraction :
    secondsToInt 1500000000 = 1 ∧ ¬ isTTLReply 1500000000 := by
  refine ⟨by decide!, by decide⟩

/-! ## Auxiliary lemmas -/

theorem wrapInt64_eq_self {x : Int} (h : isInt64 x) : wrapInt64 x = x := by
  unfold isInt64 at h
  unfold wrapInt64
  omega

theorem scanRules_eq {σ : Type} (lib : GoLib) (S : CounterStore σ) (r : HttpHeader)
    (rules : List Rule) (flag : Bool) (s : σ) :
    scanRules lib S r (HttpHeader.Get lib r "domain") (requestDescriptors r) rules flag s =
      match selectedRule lib rules r with
      | some (rule, rl) => limitBranch S s rule rl (HttpHeader.Get lib r rule.BasedOn)
      | none =>
        ⟨⟨none, false,
            some (if flag || rules.any (requestMatches lib r) then LimiterError.ErrNoRateLimit
              else LimiterError.ErrNoMatchingRule)⟩, s, []⟩ := by
  induction rules generalizing flag with
  | nil => cases flag <;> simp [scanRules, selectedRule]
  | cons rule rest ih =>
    unfold scanRules
    by_cases hm : requestMatches lib r rule = true
    · have hm2 : ruleApplies lib (HttpHeader.Get lib r "domain") (requestDescriptors r) rule
          = true := hm
      cases hrl : rule.RateLimit with
      | some rl => simp [selectedRule, hm, hm2, hrl]
      | none =>
        simp only [hm2, if_true]
        rw [ih true]
        simp [selectedRule, hm, hrl]
    · have hm2 : ruleApplies lib (HttpHeader.Get lib r "domain") (requestDescriptors r) rule
          = false := by simpa [requestMatches] using hm
      simp only [hm2]
      rw [if_neg (by simp), ih flag]
      have hm3 : requestMatches lib r rule = false := by simpa using hm
      simp [selectedRule, hm3]

theorem IsRateLimited_eq {σ : Type} (lib : GoLib) (S : CounterStore σ) (rules : List Rule)
    (s : σ) (r : HttpHeader) :
    IsRateLimited lib S rules s r =
      match selectedRule lib rules r with
      | some (rule, rl) => limitBranch S s rule rl (HttpHeader.Get lib r rule.BasedOn)
      | none =>
        ⟨⟨none, false,
            some (if rules.any (requestMatches lib r) then LimiterError.ErrNoRateLimit
              else LimiterError.ErrNoMatchingRule)⟩, s, []⟩ := by
  unfold IsRateLimited
  rw [scanRules_eq]
  simp

theorem IsRateLimited_selected {σ : Type} (lib : GoLib) (S : CounterStore σ)
    (rules : List Rule) (s : σ) (r : HttpHeader) (rule : Rule) (rl : RateLimit)
    (h : selectedRule lib rules r = some (rule, rl)) :
    IsRateLimited lib S rules s r = limitBranch S s rule rl (HttpHeader.Get lib r rule.BasedOn) := by
  rw [IsRateLimited_eq, h]

/-! ## What `validateRules` accepts -/

theorem validateDescriptors_eq_none_iff (domain : String) (ds : List Descriptor) :
    validateDescriptors domain ds = none ↔ ∀ d ∈ ds, d.Key ≠ "" ∧ d.Value ≠ "" := by
  induction ds with
  | nil => simp [validateDescriptors]
  | cons d rest ih =>
    unfold validateDescriptors
    by_cases h : d.Key = "" ∨ d.Value = ""
    · rw [if_pos h]
      simp only [List.mem_cons, forall_eq_or_imp, false_iff, not_and, reduceCtorEq]
      intro h2
      rcases h with h | h
      · exact absurd h h2.1
      · exact absurd h h2.2
    · rw [if_neg h, ih]
      simp only [List.mem_cons, forall_eq_or_imp]
      push_neg at h
      exact ⟨fun h2 => ⟨h, h2⟩, fun h2 => h2.2⟩

theorem validateRateLimit_eq_none_iff (domain : String) (rl : RateLimit) :
    validateRateLimit domain rl = none ↔
      0 < rl.Multiplier ∧ rl.Unit ≠ "" ∧ 0 < rl.RequestsPerUnit := by
  unfold validateRateLimit
  split_ifs with h1 h2 h3
  · simp only [reduceCtorEq, false_iff]; omega
  · simp only [reduceCtorEq, false_iff]; tauto
  · simp only [reduceCtorEq, false_iff]; omega
  · simp only [true_iff]
    exact ⟨by omega, h2, by omega⟩

theorem validateRules_step (rule : Rule) (rest : List Rule) :
    validateRules (rule :: rest) =
      if rule.Domain = "" then some "domain is required for rate limiting rule"
      else if rule.BasedOn = "" then
        some ("based_on is required for rate limit in domain " ++ rule.Domain)
      else if rule.Descriptors.length = 0 then
        some ("at least one descriptor is required for rate limiting rule in domain "
          ++ rule.Domain)
      else
        match validateDescriptors rule.Domain rule.Descriptors with
        | some err => some err
        | none =>
          match rule.RateLimit with
          | some rl =>
            match validateRateLimit rule.Domain rl with
            | some err => some err
            | none => validateRules rest
          | none => validateRules rest := by
  rw [validateRules]

/-- The shape `validateRules` checks on one rule. -/
theorem validateRules_cons (rule : Rule) (rest : List Rule) :
    validateRules (rule :: rest) = none ↔
      (rule.Domain ≠ "" ∧ rule.BasedOn ≠ "" ∧ rule.Descriptors ≠ []
        ∧ (∀ d ∈ rule.Descriptors, d.Key ≠ "" ∧ d.Value ≠ "")
        ∧ (∀ rl, rule.RateLimit = some rl →
            0 < rl.Multiplier ∧ rl.Unit ≠ "" ∧ 0 < rl.RequestsPerUnit))
      ∧ validateRules rest = none := by
  rw [validateRules_step]
  by_cases h1 : rule.Domain = ""
  · simp [h1]
  by_cases h2 : rule.BasedOn = ""
  · simp [h1, h2]
  by_cases h3 : rule.Descriptors = []
  · simp [h1, h2, h3]
  have h3b : ¬ rule.Descriptors.length = 0 := by
    simpa [List.length_eq_zero] using h3
  rw [if_neg h1, if_neg h2, if_neg h3b]
  cases hd : validateDescriptors rule.Domain rule.Descriptors with
  | some err =>
    have := (validateDescriptors_eq_none_iff rule.Domain rule.Descriptors).not.mp (by simp [hd])
    simp only [reduceCtorEq, false_iff]
    tauto
  | none =>
    have hds := (validateDescriptors_eq_none_iff rule.Domain rule.Descriptors).mp hd
    cases hrl : rule.RateLimit with
    | none =>
      simp only [reduceCtorEq, false_implies, implies_true, and_true]
      tauto
    | some rl =>
      dsimp only
      cases hv : validateRateLimit rule.Domain rl with
      | some err =>
        have := (validateRateLimit_eq_none_iff rule.Domain rl).not.mp (by simp [hv])
        simp only [reduceCtorEq, false_iff, Option.some.injEq, forall_eq']
        tauto
      | none =>
        have hrlv := (validateRateLimit_eq_none_iff rule.Domain rl).mp hv
        simp only [Option.some.injEq, forall_eq']
        tauto

theorem validateRules_eq_none_iff (rules : List Rule) :
    validateRules rules = none ↔
      ∀ rule ∈ rules, rule.Domain ≠ "" ∧ rule.BasedOn ≠ "" ∧ rule.Descriptors ≠ []
        ∧ (∀ d ∈ rule.Descriptors, d.Key ≠ "" ∧ d.Value ≠ "")
        ∧ (∀ rl, rule.RateLimit = some rl →
            0 < rl.Multiplier ∧ rl.Unit ≠ "" ∧ 0 < rl.RequestsPerUnit) := by
  induction rules with
  | nil => simp [validateRules]
  | cons rule rest ih =>
    rw [validateRules_cons, ih]
    simp only [List.mem_cons, forall_eq_or_imp]

theorem selectedRule_mem (lib : GoLib) (rules : List Rule) (r : HttpHeader) (rule : Rule)
    (rl : RateLimit) (h : selectedRule lib rules r = some (rule, rl)) :
    rule ∈ rules ∧ requestMatches lib r rule = true ∧ rule.RateLimit = some rl := by
  unfold selectedRule at h
  obtain ⟨x, hx, hfx⟩ := List.exists_of_findSome?_eq_some h
  by_cases hm : requestMatches lib r x = true
  · rw [if_pos hm] at hfx
    cases hrl : x.RateLimit with
    | none => simp [hrl] at hfx
    | some y =>
      simp only [hrl, Option.map_some', Option.some.injEq, Prod.mk.injEq] at hfx
      obtain ⟨h1, h2⟩ := hfx
      subst h1; subst h2
      exact ⟨hx, hm, hrl⟩
  · rw [if_neg hm] at hfx
    exact absurd hfx (by simp)

theorem validated_selected (lib : GoLib) (rules : List Rule) (r : HttpHeader) (rule : Rule)
    (rl : RateLimit) (hval : validateRules rules = none)
    (hsel : selectedRule lib rules r = some (rule, rl)) :
    0 < rl.Multiplier ∧ rl.Unit ≠ "" ∧ 0 < rl.RequestsPerUnit := by
  obtain ⟨hmem, -, hrl⟩ := selectedRule_mem lib rules r rule rl hsel
  exact ((validateRules_eq_none_iff rules).mp hval rule hmem).2.2.2.2 rl hrl

/-! ## The four paths of the counter protocol -/

theorem limitBranch_incr_error {σ : Type} (S : CounterStore σ) (s : σ) (rule : Rule)
    (rl : RateLimit) (userID : String)
    (hincr : (S.Incr s (getRedisKey rule rule.Descriptors userID)).1 = none) :
    limitBranch S s rule rl userID =
      ⟨⟨none, false, some .ErrRateLimiterCheck⟩,
        (S.Incr s (getRedisKey rule rule.Descriptors userID)).2,
        [.Incr (getRedisKey rule rule.Descriptors userID)]⟩ := by
  simp [limitBranch, hincr]

theorem limitBranch_over {σ : Type} (S : CounterStore σ) (s : σ) (rule : Rule)
    (rl : RateLimit) (userID : String) (n ttl : Int)
    (hincr : (S.Incr s (getRedisKey rule rule.Descriptors userID)).1 = some n)
    (hn : rl.RequestsPerUnit < n)
    (httl : (S.TTL (S.Incr s (getRedisKey rule rule.Descriptors userID)).2
      (getRedisKey rule rule.Descriptors userID)).1 = some ttl) :
    limitBranch S s rule rl userID =
      ⟨⟨some ⟨0, rl.RequestsPerUnit, secondsToInt ttl⟩, true, some .ErrTooManyRequests⟩,
        (S.TTL (S.Incr s (getRedisKey rule rule.Descriptors userID)).2
          (getRedisKey rule rule.Descriptors userID)).2,
        [.Incr (getRedisKey rule rule.Descriptors userID),
         .TTL (getRedisKey rule rule.Descriptors userID)]⟩ := by
  simp [limitBranch, hincr, hn, httl]

theorem limitBranch_ttl_error {σ : Type} (S : CounterStore σ) (s : σ) (rule : Rule)
    (rl : RateLimit) (userID : String) (n : Int)
    (hincr : (S.Incr s (getRedisKey rule rule.Descriptors userID)).1 = some n)
    (hn : rl.RequestsPerUnit < n)
    (httl : (S.TTL (S.Incr s (getRedisKey rule rule.Descriptors userID)).2
      (getRedisKey rule rule.Descriptors userID)).1 = none) :
    limitBranch S s rule rl userID =
      ⟨⟨none, false, some .ErrRateLimiterCheck⟩,
        (S.TTL (S.Incr s (getRedisKey rule rule.Descriptors userID)).2
          (getRedisKey rule rule.Descriptors userID)).2,
        [.Incr (getRedisKey rule rule.Descriptors userID),
         .TTL (getRedisKey rule rule.Descriptors userID)]⟩ := by
  simp [limitBranch, hincr, hn, httl]

theorem limitBranch_first {σ : Type} (S : CounterStore σ) (s : σ) (rule : Rule)
    (rl : RateLimit) (userID : String)
    (hincr : (S.Incr s (getRedisKey rule rule.Descriptors userID)).1 = some 1)
    (hL : 1 ≤ rl.RequestsPerUnit) :
    limitBranch S s rule rl userID =
      ⟨⟨some ⟨wrapInt64 (rl.RequestsPerUnit - 1), rl.RequestsPerUnit, 0⟩, false, none⟩,
        (S.Expire (S.Incr s (getRedisKey rule rule.Descriptors userID)).2
          (getRedisKey rule rule.Descriptors userID)
          (getExpirationDuration rl.Unit rl.Multiplier)).2,
        [.Incr (getRedisKey rule rule.Descriptors userID),
         .Expire (getRedisKey rule rule.Descriptors userID)
           (getExpirationDuration rl.Unit rl.Multiplier)]⟩ := by
  have h : ¬ rl.RequestsPerUnit < 1 := by omega
  simp [limitBranch, hincr, h]

theorem limitBranch_within {σ : Type} (S : CounterStore σ) (s : σ) (rule : Rule)
    (rl : RateLimit) (userID : String) (n : Int)
    (hincr : (S.Incr s (getRedisKey rule rule.Descriptors userID)).1 = some n)
    (hle : n ≤ rl.RequestsPerUnit) (hne : n ≠ 1) :
    limitBranch S s rule rl userID =
      ⟨⟨some ⟨wrapInt64 (rl.RequestsPerUnit - n), rl.RequestsPerUnit, 0⟩, false, none⟩,
        (S.Incr s (getRedisKey rule rule.Descriptors userID)).2,
        [.Incr (getRedisKey rule rule.Descriptors userID)]⟩ := by
  have h : ¬ rl.RequestsPerUnit < n := by omega
  simp [limitBranch, hincr, h, hne]

theorem getExpirationDuration_known (unitName : String) (unitNs multiplier : Int)
    (hunit : (unitName, unitNs) ∈ [("second", (1000000000 : Int)), ("minute", 60000000000),
      ("hour", 3600000000000), ("day", 86400000000000)])
    (hM : 1 ≤ multiplier) (hfit : multiplier * unitNs < 2 ^ 63) :
    getExpirationDuration unitName multiplier = multiplier * unitNs := by
  simp only [List.mem_cons, Prod.mk.injEq, List.mem_singleton, List.not_mem_nil, or_false]
    at hunit
  rcases hunit with ⟨h1, h2⟩ | ⟨h1, h2⟩ | ⟨h1, h2⟩ | ⟨h1, h2⟩ <;> subst h1 <;> subst h2
  · have hr : isInt64 (1000000000 * multiplier) := by unfold isInt64; omega
    unfold getExpirationDuration
    rw [if_pos rfl, wrapInt64_eq_self hr]
    ring
  · have hr : isInt64 (60000000000 * multiplier) := by unfold isInt64; omega
    unfold getExpirationDuration
    rw [if_neg (by decide), if_pos rfl, wrapInt64_eq_self hr]
    ring
  · have hr : isInt64 (3600000000000 * multiplier) := by unfold isInt64; omega
    unfold getExpirationDuration
    rw [if_neg (by decide), if_neg (by decide), if_pos rfl, wrapInt64_eq_self hr]
    ring
  · have hr : isInt64 (3600000000000 * 24 * multiplier) := by unfold isInt64; omega
    unfold getExpirationDuration
    rw [if_neg (by decide), if_neg (by decide), if_neg (by decide), if_pos rfl,
      wrapInt64_eq_self hr]
    ring

theorem selectedRule_of_split (lib : GoLib) (r : HttpHeader) (pre post : List Rule)
    (rule : Rule) (rl : RateLimit)
    (hpre : ∀ x ∈ pre, requestMatches lib r x = true → x.RateLimit = none)
    (hm : requestMatches lib r rule = true) (hrl : rule.RateLimit = some rl) :
    selectedRule lib (pre ++ rule :: post) r = some (rule, rl) := by
  induction pre with
  | nil => simp [selectedRule, hm, hrl]
  | cons x xs ih =>
    have hx : (if requestMatches lib r x = true then x.RateLimit.map (fun rl => (x, rl))
        else none) = none := by
      by_cases hxm : requestMatches lib r x = true
      · simp [hxm, hpre x (by simp) hxm]
      · simp [hxm]
    have ih2 := ih (fun y hy => hpre y (by simp [hy]))
    unfold selectedRule at ih2 ⊢
    simp only [List.cons_append, List.findSome?_cons, hx]
    exact ih2

theorem selectedRule_eq_none (lib : GoLib) (r : HttpHeader) (rules : List Rule)
    (h : ∀ x ∈ rules, requestMatches lib r x = true → x.RateLimit = none) :
    selectedRule lib rules r = none := by
  unfold selectedRule
  rw [List.findSome?_eq_none_iff]
  intro x hx
  by_cases hxm : requestMatches lib r x = true
  · simp [hxm, h x hx hxm]
  · simp [hxm]

/-! ## C1: which rule decides -/

/-- C1, counterexample.  Rule set `[ruleNoLimit, ruleS1]`, request of S1: both
rules match, the first has no `rate_limit` block, yet the result is not the
Matched_NoLimit outcome: the second rule is applied and the counter store is
called. -/
theorem first_match_counterexample :
    requestMatches asciiLib requestS1 ruleNoLimit = true
      ∧ requestMatches asciiLib requestS1 ruleS1 = true
      ∧ ruleNoLimit.RateLimit = none
      ∧ (IsRateLimited asciiLib (mapStore (fun _ => 0)) [ruleNoLimit, ruleS1] []
            requestS1).resp ≠ ⟨none, false, some .ErrNoRateLimit⟩
      ∧ (IsRateLimited asciiLib (mapStore (fun _ => 0)) [ruleNoLimit, ruleS1] []
            requestS1).resp = ⟨some ⟨2, 3, 0⟩, false, none⟩
      ∧ (IsRateLimited asciiLib (mapStore (fun _ => 0)) [ruleNoLimit, ruleS1] []
            requestS1).calls
          = [.Incr "auth#login#alice", .Expire "auth#login#alice" 60000000000] := by
  decide

/-- C1, amended.  The outcome of `IsRateLimited` is determined by the first
rule, in rule-set order, that matches the request and has a `rate_limit`
block: matching rules without one are passed over, and the result is the
counter protocol run on that rule.  When no matching rule has a `rate_limit`
block, no counter-store call is made, the store is unchanged, and the result is
Matched_NoLimit if some rule matched and Unmatched if none did. -/
theorem IsRateLimited_first_limited_match {σ : Type} (lib : GoLib) (S : CounterStore σ)
    (rules : List Rule) (s : σ) (r : HttpHeader) :
    (∀ (pre post : List Rule) (rule : Rule) (rl : RateLimit),
        rules = pre ++ rule :: post →
        (∀ x ∈ pre, requestMatches lib r x = true → x.RateLimit = none) →
        requestMatches lib r rule = true → rule.RateLimit = some rl →
        IsRateLimited lib S rules s r
          = limitBranch S s rule rl (HttpHeader.Get lib r rule.BasedOn))
      ∧ ((∀ x ∈ rules, requestMatches lib r x = true → x.RateLimit = none) →
          IsRateLimited lib S rules s r
            = ⟨⟨none, false,
                some (if rules.any (requestMatches lib r) then LimiterError.ErrNoRateLimit
                  else LimiterError.ErrNoMatchingRule)⟩, s, []⟩) := by
  constructor
  · intro pre post rule rl hsplit hpre hm hrl
    subst hsplit
    exact IsRateLimited_selected lib S _ s r rule rl
      (selectedRule_of_split lib r pre post rule rl hpre hm hrl)
  · intro h
    rw [IsRateLimited_eq, selectedRule_eq_none lib r rules h]

/-- C1, amended, at the rule set `[ruleNoLimit, ruleS1]` and the request of S1:
the first rule matches and has no `rate_limit` block, the second matches and
has one, and the second rule decides. -/
theorem IsRateLimited_first_limited_match_witness :
    (∀ x ∈ [ruleNoLimit], requestMatches asciiLib requestS1 x = true → x.RateLimit = none)
      ∧ requestMatches asciiLib requestS1 ruleS1 = true
      ∧ ruleS1.RateLimit = some ⟨"minute", 1, 3⟩
      ∧ IsRateLimited asciiLib (mapStore (fun _ => 0)) [ruleNoLimit, ruleS1] [] requestS1
          = limitBranch (mapStore (fun _ => 0)) [] ruleS1 ⟨"minute", 1, 3⟩
              (HttpHeader.Get asciiLib requestS1 ruleS1.BasedOn) :=
  ⟨by decide, by decide, rfl,
    (IsRateLimited_first_limited_match asciiLib (mapStore (fun _ => 0))
        [ruleNoLimit, ruleS1] [] requestS1).1 [ruleNoLimit] [] ruleS1 ⟨"minute", 1, 3⟩ rfl
      (by decide) (by decide) rfl⟩

/-! ## C2: first request of a window -/

/-- C2, counterexample.  Rule `ruleHugeWindow` (unit `second`, multiplier
9223372037, three requests per unit), request of S1, empty store: `Incr`
returns 1, and `Expire` is called with the wrapped product
-9223372036709551616 ns, not with 9223372037 seconds. -/
theorem first_request_window_counterexample :
    selectedRule asciiLib [ruleHugeWindow] requestS1
        = some (ruleHugeWindow, ⟨"second", 9223372037, 3⟩)
      ∧ ((mapStore (fun _ => 0)).Incr [] (counterKey asciiLib ruleHugeWindow requestS1)).1
          = some 1
      ∧ (IsRateLimited asciiLib (mapStore (fun _ => 0)) [ruleHugeWindow] [] requestS1).calls
          = [.Incr "auth#login#alice", .Expire "auth#login#alice" (-9223372036709551616)]
      ∧ (-9223372036709551616 : Int) ≠ 9223372037 * 1000000000 := by
  decide

/-- C2, amended.  For the rule at which `IsRateLimited` stops, with
`requests_per_unit = L >= 1`, `multiplier >= 1`, a unit among second, minute,
hour, day, and `multiplier x unit duration` within the range of
`time.Duration` (below 2^63 ns): if `Incr` on the counter key returns 1, the
store calls are exactly `Incr(key)` then `Expire(key, multiplier x unit
duration)`, and the response is not limited, without error, with remaining
`L - 1`, limit `L` and retry-after 0, whatever `Expire` answers. -/
theorem first_request_of_window {σ : Type} (lib : GoLib) (S : CounterStore σ)
    (rules : List Rule) (s : σ) (r : HttpHeader) (rule : Rule) (rl : RateLimit) (unitNs : Int)
    (hsel : selectedRule lib rules r = some (rule, rl))
    (hL : 1 ≤ rl.RequestsPerUnit) (hLr : isInt64 rl.RequestsPerUnit)
    (hM : 1 ≤ rl.Multiplier)
    (hunit : (rl.Unit, unitNs) ∈ [("second", (1000000000 : Int)), ("minute", 60000000000),
      ("hour", 3600000000000), ("day", 86400000000000)])
    (hfit : rl.Multiplier * unitNs < 2 ^ 63)
    (hincr : (S.Incr s (counterKey lib rule r)).1 = some 1) :
    (IsRateLimited lib S rules s r).calls
        = [.Incr (counterKey lib rule r),
           .Expire (counterKey lib rule r) (rl.Multiplier * unitNs)]
      ∧ (IsRateLimited lib S rules s r).resp
        = ⟨some ⟨rl.RequestsPerUnit - 1, rl.RequestsPerUnit, 0⟩, false, none⟩ := by
  have hw : wrapInt64 (rl.RequestsPerUnit - 1) = rl.RequestsPerUnit - 1 := by
    apply wrapInt64_eq_self
    unfold isInt64 at hLr ⊢
    omega
  rw [IsRateLimited_selected lib S rules s r rule rl hsel,
    limitBranch_first S s rule rl _ hincr hL,
    getExpirationDuration_known rl.Unit unitNs rl.Multiplier hunit hM hfit, hw]
  exact ⟨rfl, rfl⟩

/-- C2, amended, at scenario S1: first request on an empty store. -/
theorem first_request_of_window_witness :
    selectedRule asciiLib [ruleS1] requestS1 = some (ruleS1, ⟨"minute", 1, 3⟩)
      ∧ ((mapStore (fun _ => 0)).Incr [] (counterKey asciiLib ruleS1 requestS1)).1 = some 1
      ∧ (1 : Int) * 60000000000 < 2 ^ 63
      ∧ (IsRateLimited asciiLib (mapStore (fun _ => 0)) [ruleS1] [] requestS1).calls
        = [.Incr (counterKey asciiLib ruleS1 requestS1),
           .Expire (counterKey asciiLib ruleS1 requestS1) (1 * 60000000000)]
      ∧ (IsRateLimited asciiLib (mapStore (fun _ => 0)) [ruleS1] [] requestS1).resp
        = ⟨some ⟨3 - 1, 3, 0⟩, false, none⟩ :=
  ⟨by decide, by decide, by decide,
    first_request_of_window asciiLib (mapStore (fun _ => 0)) [ruleS1] [] requestS1 ruleS1
      ⟨"minute", 1, 3⟩ 60000000000 (by decide) (by decide) (by decide) (by decide)
      (by decide) (by decide) (by decide)⟩

/-! ## C3: request within the budget -/

/-- C3.  For the rule at which `IsRateLimited` stops, with `requests_per_unit
= L`, and every value `n` returned by `Incr` with `1 < n <= L`: the response
is not limited, without error, with remaining `L - n`, limit `L` and
retry-after 0, and the only store call is the `Incr` (neither `Expire` nor
`TTL` is called). -/
theorem within_budget {σ : Type} (lib : GoLib) (S : CounterStore σ)
    (rules : List Rule) (s : σ) (r : HttpHeader) (rule : Rule) (rl : RateLimit) (n : Int)
    (hsel : selectedRule lib rules r = some (rule, rl))
    (hLr : isInt64 rl.RequestsPerUnit)
    (hincr : (S.Incr s (counterKey lib rule r)).1 = some n)
    (h1 : 1 < n) (hn : n ≤ rl.RequestsPerUnit) :
    (IsRateLimited lib S rules s r).resp
        = ⟨some ⟨rl.RequestsPerUnit - n, rl.RequestsPerUnit, 0⟩, false, none⟩
      ∧ (IsRateLimited lib S rules s r).calls = [.Incr (counterKey lib rule r)] := by
  have hw : wrapInt64 (rl.RequestsPerUnit - n) = rl.RequestsPerUnit - n := by
    apply wrapInt64_eq_self
    unfold isInt64 at hLr ⊢
    omega
  rw [IsRateLimited_selected lib S rules s r rule rl hsel,
    limitBranch_within S s rule rl _ n hincr hn (by omega), hw]
  exact ⟨rfl, rfl⟩

/-- C3 at scenario S1 with the counter at 1: `Incr` returns 2 and the second
request has one request remaining. -/
theorem within_budget_witness :
    selectedRule asciiLib [ruleS1] requestS1 = some (ruleS1, ⟨"minute", 1, 3⟩)
      ∧ ((mapStore (fun _ => 0)).Incr [("auth#login#alice", 1)]
          (counterKey asciiLib ruleS1 requestS1)).1 = some 2
      ∧ (IsRateLimited asciiLib (mapStore (fun _ => 0)) [ruleS1] [("auth#login#alice", 1)]
          requestS1).resp
        = ⟨some ⟨3 - 2, 3, 0⟩, false, none⟩
      ∧ (IsRateLimited asciiLib (mapStore (fun _ => 0)) [ruleS1] [("auth#login#alice", 1)]
          requestS1).calls = [.Incr (counterKey asciiLib ruleS1 requestS1)] :=
  ⟨by decide, by decide,
    within_budget asciiLib (mapStore (fun _ => 0)) [ruleS1] [("auth#login#alice", 1)]
      requestS1 ruleS1 ⟨"minute", 1, 3⟩ 2 (by decide) (by decide) (by decide) (by decide)
      (by decide)⟩

/-! ## C4: request over the budget -/

/-- C5, counterexample.  Scenario S1 (a validated rule).  With the counter at 3
and `TTL` answering 0, the result is limited and its retry-after is 0.  With
the counter at -2^63, `Incr` returns -2^63 + 1 and the subtraction `3 - n`
wraps around: remaining is negative. -/
theorem decision_invariant_counterexample :
    validateRules [ruleS1] = none
      ∧ selectedRule asciiLib [ruleS1] requestS1 = some (ruleS1, ⟨"minute", 1, 3⟩)
      ∧ (IsRateLimited asciiLib (mapStore (fun _ => 0)) [ruleS1]
          [("auth#login#alice", 3)] requestS1).resp
          = ⟨some ⟨0, 3, 0⟩, true, some .ErrTooManyRequests⟩
      ∧ (IsRateLimited asciiLib (mapStore (fun _ => 0)) [ruleS1]
          [("auth#login#alice", -9223372036854775808)] requestS1).resp
          = ⟨some ⟨-9223372036854775806, 3, 0⟩, false, none⟩ := by
  refine ⟨by decide, by decide, by decide!, by decide⟩

/-- C5, amended.  For a validated rule set, the rule at which `IsRateLimited`
stops (`requests_per_unit = L`) and every store: a header-bearing result has
limit `L`; its retry-after is 0 whenever the result is not limited; and its
remaining is non-negative provided the subtraction `L - n` by the value `n`
that `Incr` returned does not overflow (`L - n < 2^63`, true for every
`n >= 1`).  Nothing is asserted about the retry-after of a limited result,
which is `int(ttl.Seconds())` and may be 0. -/
theorem decision_invariant {σ : Type} (lib : GoLib) (S : CounterStore σ)
    (rules : List Rule) (s : σ) (r : HttpHeader) (rule : Rule) (rl : RateLimit) (h : Header)
    (hval : validateRules rules = none)
    (hsel : selectedRule lib rules r = some (rule, rl))
    (hLr : isInt64 rl.RequestsPerUnit)
    (hh : (IsRateLimited lib S rules s r).resp.Header = some h) :
    h.XRatelimit = rl.RequestsPerUnit
      ∧ ((IsRateLimited lib S rules s r).resp.Limited = false → h.XRateLimitRetryAfter = 0)
      ∧ ((∀ n, (S.Incr s (counterKey lib rule r)).1 = some n → rl.RequestsPerUnit - n < 2 ^ 63) →
          0 ≤ h.XRatelimitRemaining) := by
  obtain ⟨-, -, hL⟩ := validated_selected lib rules r rule rl hval hsel
  rw [IsRateLimited_selected lib S rules s r rule rl hsel] at hh ⊢
  cases hi : (S.Incr s (counterKey lib rule r)).1 with
  | none =>
    rw [limitBranch_incr_error S s rule rl _ hi] at hh
    simp at hh
  | some n =>
    by_cases hgt : rl.RequestsPerUnit < n
    · cases ht : (S.TTL (S.Incr s (counterKey lib rule r)).2 (counterKey lib rule r)).1 with
      | none =>
        rw [limitBranch_ttl_error S s rule rl _ n hi hgt ht] at hh
        simp at hh
      | some ttl =>
        rw [limitBranch_over S s rule rl _ n ttl hi hgt ht] at hh ⊢
        simp only [Option.some.injEq] at hh
        subst hh
        simp
    · by_cases h1 : n = 1
      · subst h1
        rw [limitBranch_first S s rule rl _ hi (by omega)] at hh ⊢
        simp only [Option.some.injEq] at hh
        subst hh
        refine ⟨rfl, fun _ => rfl, fun _ => ?_⟩
        have hw : wrapInt64 (rl.RequestsPerUnit - 1) = rl.RequestsPerUnit - 1 := by
          apply wrapInt64_eq_self
          unfold isInt64 at hLr ⊢
          omega
        show 0 ≤ wrapInt64 (rl.RequestsPerUnit - 1)
        rw [hw]
        omega
      · rw [limitBranch_within S s rule rl _ n hi (by omega) h1] at hh ⊢
        simp only [Option.some.injEq] at hh
        subst hh
        refine ⟨rfl, fun _ => rfl, fun hno => ?_⟩
        have hlt := hno n rfl
        have hw : wrapInt64 (rl.RequestsPerUnit - n) = rl.RequestsPerUnit - n := by
          apply wrapInt64_eq_self
          unfold isInt64 at hLr ⊢
          omega
        show 0 ≤ wrapInt64 (rl.RequestsPerUnit - n)
        rw [hw]
        omega

/-- C5, amended, at scenario S1 with the counter at 1: the header of the second
response is `(1, 3, 0)`. -/
theorem decision_invariant_witness :
    validateRules [ruleS1] = none
      ∧ selectedRule asciiLib [ruleS1] requestS1 = some (ruleS1, ⟨"minute", 1, 3⟩)
      ∧ (IsRateLimited asciiLib (mapStore (fun _ => 0)) [ruleS1] [("auth#login#alice", 1)]
          requestS1).resp = ⟨some ⟨1, 3, 0⟩, false, none⟩
      ∧ (Header.mk 1 3 0).XRatelimit = (RateLimit.mk "minute" 1 3).RequestsPerUnit
      ∧ (Header.mk 1 3 0).XRateLimitRetryAfter = 0
      ∧ 0 ≤ (Header.mk 1 3 0).XRatelimitRemaining :=
  have h := decision_invariant asciiLib (mapStore (fun _ => 0)) [ruleS1]
    [("auth#login#alice", 1)] requestS1 ruleS1 ⟨"minute", 1, 3⟩ ⟨1, 3, 0⟩ (by decide)
    (by decide) (by decide) (by decide)
  ⟨by decide, by decide, by decide, h.1, h.2.1 (by decide),
    h.2.2 (fun n hn => by
      have h2 : n = 2 := by
        have h3 : ((mapStore (fun _ => 0)).Incr [("auth#login#alice", 1)]
            (counterKey asciiLib ruleS1 requestS1)).1 = some 2 := by decide
        rw [h3] at hn
        exact (Option.some.inj hn).symm
      subst h2
      decide)⟩

/-! ## C6: a window on the map store -/

theorem mapStore_incr (ttlOf : String → Int) (m : CounterMap) (key : String) :
    ((mapStore ttlOf).Incr m key).1 = some (counterValue m key + 1)
      ∧ counterValue ((mapStore ttlOf).Incr m key).2 key = counterValue m key + 1 := by
  unfold mapStore counterValue
  cases h : List.lookup key m with
  | none => simp [h, List.lookup]
  | some v => simp [h, List.lookup]

theorem mapStore_expire_pos (ttlOf : String → Int) (m : CounterMap) (key : String) (d : Int)
    (hd : 0 < d) : ((mapStore ttlOf).Expire m key d).2 = m := by
  have h : ¬ d ≤ 0 := by omega
  simp [mapStore, h]

theorem serveRepeated_window (lib : GoLib) (rules : List Rule) (r : HttpHeader) (rule : Rule)
    (rl : RateLimit) (ttlOf : String → Int)
    (hsel : selectedRule lib rules r = some (rule, rl))
    (hLr : isInt64 rl.RequestsPerUnit)
    (hwin : 0 < getExpirationDuration rl.Unit rl.Multiplier) :
    ∀ (j : Nat) (m : CounterMap), 0 ≤ counterValue m (counterKey lib rule r) →
      counterValue m (counterKey lib rule r) + j = rl.RequestsPerUnit →
      serveRepeated lib (mapStore ttlOf) rules r (j + 1) m =
        (List.range j).map (fun (i : Nat) =>
            (⟨some ⟨rl.RequestsPerUnit - (counterValue m (counterKey lib rule r) + 1) - (i : Int),
              rl.RequestsPerUnit, 0⟩, false, none⟩ : Response))
          ++ [⟨some ⟨0, rl.RequestsPerUnit, secondsToInt (ttlOf (counterKey lib rule r))⟩,
                true, some .ErrTooManyRequests⟩] := by
  intro j
  induction j with
  | zero =>
    intro m h0 hc
    obtain ⟨hi, -⟩ := mapStore_incr ttlOf m (counterKey lib rule r)
    have hout := IsRateLimited_selected lib (mapStore ttlOf) rules m r rule rl hsel
    rw [limitBranch_over (mapStore ttlOf) m rule rl _ _ (ttlOf (counterKey lib rule r)) hi
      (by simp at hc; omega) rfl] at hout
    simp [serveRepeated, hout]
  | succ j ih =>
    intro m h0 hc
    obtain ⟨hi, hnext⟩ := mapStore_incr ttlOf m (counterKey lib rule r)
    have hout := IsRateLimited_selected lib (mapStore ttlOf) rules m r rule rl hsel
    have hw : wrapInt64 (rl.RequestsPerUnit - (counterValue m (counterKey lib rule r) + 1))
        = rl.RequestsPerUnit - (counterValue m (counterKey lib rule r) + 1) := by
      apply wrapInt64_eq_self
      unfold isInt64 at hLr ⊢
      push_cast at hc
      omega
    have hresp : (IsRateLimited lib (mapStore ttlOf) rules m r).resp
          = ⟨some ⟨rl.RequestsPerUnit - (counterValue m (counterKey lib rule r) + 1),
              rl.RequestsPerUnit, 0⟩, false, none⟩
        ∧ (IsRateLimited lib (mapStore ttlOf) rules m r).store
          = ((mapStore ttlOf).Incr m (counterKey lib rule r)).2 := by
      by_cases h1 : counterValue m (counterKey lib rule r) + 1 = 1
      · rw [h1] at hi hw
        rw [limitBranch_first (mapStore ttlOf) m rule rl _ hi
          (by push_cast at hc; omega)] at hout
        rw [hout, h1, hw]
        exact ⟨rfl, mapStore_expire_pos ttlOf _ _ _ hwin⟩
      · rw [limitBranch_within (mapStore ttlOf) m rule rl _ _ hi
          (by push_cast at hc; omega) h1] at hout
        rw [hout, hw]
        exact ⟨rfl, rfl⟩
    have ih2 := ih ((mapStore ttlOf).Incr m (counterKey lib rule r)).2
      (by rw [hnext]; omega) (by rw [hnext]; push_cast at hc; omega)
    rw [hnext] at ih2
    have hstep : serveRepeated lib (mapStore ttlOf) rules r (j + 1 + 1) m
        = (IsRateLimited lib (mapStore ttlOf) rules m r).resp
          :: serveRepeated lib (mapStore ttlOf) rules r (j + 1)
              (IsRateLimited lib (mapStore ttlOf) rules m r).store := rfl
    rw [hstep, hresp.1, hresp.2, ih2, List.range_succ_eq_map]
    simp only [List.map_cons, List.map_map, List.cons_append, Nat.cast_zero, sub_zero]
    congr 1
    congr 1
    apply List.map_congr_left
    intro i _
    simp only [Function.comp, Nat.succ_eq_add_one, Nat.cast_add, Nat.cast_one]
    congr 3
    ring

/-- C6, counterexample.  The rule `ruleHugeWindow` (unit `second`, multiplier
9223372037, `L = 3`) passes `validateRules`, and its counter key is absent from
the empty store.  Its window wraps to a negative duration, so the `Expire` of
each first request deletes the key at once: four consecutive requests of S1
are all allowed with remaining 2, 2, 2, 2, and none is limited. -/
theorem counter_monotonicity_counterexample :
    validateRules [ruleHugeWindow] = none
      ∧ selectedRule asciiLib [ruleHugeWindow] requestS1
          = some (ruleHugeWindow, ⟨"second", 9223372037, 3⟩)
      ∧ List.lookup (counterKey asciiLib ruleHugeWindow requestS1) ([] : CounterMap) = none
      ∧ getExpirationDuration "second" 9223372037 = -9223372036709551616
      ∧ serveRepeated asciiLib (mapStore (fun _ => 60000000000)) [ruleHugeWindow] requestS1 4 []
          = [⟨some ⟨2, 3, 0⟩, false, none⟩, ⟨some ⟨2, 3, 0⟩, false, none⟩,
             ⟨some ⟨2, 3, 0⟩, false, none⟩, ⟨some ⟨2, 3, 0⟩, false, none⟩] := by
  decide

/-- C6, amended.  On the map store (atomic increment, no failure, no time
passing), for a validated rule set, the rule at which `IsRateLimited` stops
(`requests_per_unit = L`), provided its window, the duration passed to
`Expire`, is positive (`multiplier x unit duration` does not overflow), and a
counter key absent from the store: of `L + 1` consecutive calls with the same
request, the first `L` are allowed and report remaining `L-1, L-2, ..., 0` in
that order, and the `(L+1)`-th is limited with remaining 0. -/
theorem counter_monotonicity (lib : GoLib) (rules : List Rule) (r : HttpHeader) (rule : Rule)
    (rl : RateLimit) (ttlOf : String → Int) (m : CounterMap)
    (hval : validateRules rules = none)
    (hsel : selectedRule lib rules r = some (rule, rl))
    (hLr : isInt64 rl.RequestsPerUnit)
    (hwin : 0 < getExpirationDuration rl.Unit rl.Multiplier)
    (habsent : List.lookup (counterKey lib rule r) m = none) :
    serveRepeated lib (mapStore ttlOf) rules r (rl.RequestsPerUnit.toNat + 1) m =
      (List.range rl.RequestsPerUnit.toNat).map (fun (i : Nat) =>
          (⟨some ⟨rl.RequestsPerUnit - 1 - (i : Int), rl.RequestsPerUnit, 0⟩, false, none⟩
            : Response))
        ++ [⟨some ⟨0, rl.RequestsPerUnit, secondsToInt (ttlOf (counterKey lib rule r))⟩,
              true, some .ErrTooManyRequests⟩] := by
  obtain ⟨-, -, hL⟩ := validated_selected lib rules r rule rl hval hsel
  have hc : counterValue m (counterKey lib rule r) = 0 := by
    simp [counterValue, habsent]
  have h := serveRepeated_window lib rules r rule rl ttlOf hsel hLr hwin
    rl.RequestsPerUnit.toNat m
    (by rw [hc]) (by rw [hc, Int.toNat_of_nonneg (by omega)]; ring)
  rw [hc] at h
  simpa using h

/-- C6, amended, at scenario S1 (`L = 3`, window of 60 s), empty store:
remaining 2, 1, 0, then a limited response. -/
theorem counter_monotonicity_witness :
    validateRules [ruleS1] = none
      ∧ selectedRule asciiLib [ruleS1] requestS1 = some (ruleS1, ⟨"minute", 1, 3⟩)
      ∧ 0 < getExpirationDuration "minute" 1
      ∧ List.lookup (counterKey asciiLib ruleS1 requestS1) ([] : CounterMap) = none
      ∧ serveRepeated asciiLib (mapStore (fun _ => 60000000000)) [ruleS1] requestS1 4 [] =
        [⟨some ⟨2, 3, 0⟩, false, none⟩, ⟨some ⟨1, 3, 0⟩, false, none⟩,
         ⟨some ⟨0, 3, 0⟩, false, none⟩, ⟨some ⟨0, 3, 60⟩, true, some .ErrTooManyRequests⟩] := by
  have h := counter_monotonicity asciiLib [ruleS1] requestS1 ruleS1 ⟨"minute", 1, 3⟩
    (fun _ => 60000000000) [] (by decide) (by decide) (by decide) (by decide) (by decide)
  have h60 : secondsToInt 60000000000 = 60 := by decide!
  rw [h60] at h
  exact ⟨by decide, by decide, by decide, by decide, h⟩

/-! ## The five shapes of a response -/

theorem limitBranch_resp_cases {σ : Type} (S : CounterStore σ) (s : σ) (rule : Rule)
    (rl : RateLimit) (userID : String) :
    (limitBranch S s rule rl userID).resp = ⟨none, false, some .ErrRateLimiterCheck⟩
      ∨ (∃ h, (limitBranch S s rule rl userID).resp = ⟨some h, true, some .ErrTooManyRequests⟩)
      ∨ (∃ h, h.XRateLimitRetryAfter = 0
          ∧ (limitBranch S s rule rl userID).resp = ⟨some h, false, none⟩) := by
  cases hi : (S.Incr s (getRedisKey rule rule.Descriptors userID)).1 with
  | none =>
    rw [limitBranch_incr_error S s rule rl userID hi]
    exact Or.inl rfl
  | some n =>
    by_cases hgt : rl.RequestsPerUnit < n
    · cases ht : (S.TTL (S.Incr s (getRedisKey rule rule.Descriptors userID)).2
          (getRedisKey rule rule.Descriptors userID)).1 with
      | none =>
        rw [limitBranch_ttl_error S s rule rl userID n hi hgt ht]
        exact Or.inl rfl
      | some ttl =>
        rw [limitBranch_over S s rule rl userID n ttl hi hgt ht]
        exact Or.inr (Or.inl ⟨_, rfl⟩)
    · by_cases h1 : n = 1
      · subst h1
        rw [limitBranch_first S s rule rl userID hi (by omega)]
        exact Or.inr (Or.inr ⟨_, rfl, rfl⟩)
      · rw [limitBranch_within S s rule rl userID n hi (by omega) h1]
        exact Or.inr (Or.inr ⟨_, rfl, rfl⟩)

theorem IsRateLimited_resp_cases {σ : Type} (lib : GoLib) (S : CounterStore σ)
    (rules : List Rule) (s : σ) (r : HttpHeader) :
    (IsRateLimited lib S rules s r).resp = ⟨none, false, some .ErrNoMatchingRule⟩
      ∨ (IsRateLimited lib S rules s r).resp = ⟨none, false, some .ErrNoRateLimit⟩
      ∨ (IsRateLimited lib S rules s r).resp = ⟨none, false, some .ErrRateLimiterCheck⟩
      ∨ (∃ h, (IsRateLimited lib S rules s r).resp = ⟨some h, true, some .ErrTooManyRequests⟩)
      ∨ (∃ h, h.XRateLimitRetryAfter = 0
          ∧ (IsRateLimited lib S rules s r).resp = ⟨some h, false, none⟩) := by
  rw [IsRateLimited_eq]
  cases hsel : selectedRule lib rules r with
  | none =>
    by_cases hany : rules.any (requestMatches lib r) = true
    · right; left
      simp [hany]
    · left
      simp [hany]
  | some p =>
    obtain ⟨rule, rl⟩ := p
    right; right
    exact limitBranch_resp_cases S s rule rl _

/-! ## C7: pass-through of requests without a limit -/

theorem handleResponse_passthrough (err : LimiterError)
    (h : err = .ErrNoMatchingRule ∨ err = .ErrNoRateLimit) :
    handleResponse ⟨none, false, some err⟩ = ⟨[.ServeNext], true⟩ := by
  rcases h with h | h <;> subst h <;> rfl

/-- C7, the code at the failing inputs.  Scenario S3 (rule of S1, request with
domain `other`) gives the Unmatched outcome, scenario S4 (the rule without
`rate_limit` block, request of S1) the Matched_NoLimit outcome.  In both the
handler calls the downstream handler once, sets no header, and then ends in a
nil dereference of `resp.Header` at line 40. -/
theorem passthrough_ends_in_nil_dereference :
    (IsRateLimited asciiLib (mapStore (fun _ => 0)) [ruleS1] [] requestOther).resp
        = ⟨none, false, some .ErrNoMatchingRule⟩
      ∧ (RateLimiterMiddleware asciiLib (mapStore (fun _ => 0)) [ruleS1] [] requestOther).1
        = ⟨[.ServeNext], true⟩
      ∧ (IsRateLimited asciiLib (mapStore (fun _ => 0)) [ruleNoLimit] [] requestS1).resp
        = ⟨none, false, some .ErrNoRateLimit⟩
      ∧ (RateLimiterMiddleware asciiLib (mapStore (fun _ => 0)) [ruleNoLimit] [] requestS1).1
        = ⟨[.ServeNext], true⟩
      ∧ (RateLimiterMiddleware asciiLib (mapStore (fun _ => 0)) [ruleS1] []
          requestOther).1.nextCalls = 1
      ∧ (RateLimiterMiddleware asciiLib (mapStore (fun _ => 0)) [ruleS1] []
          requestOther).1.headersSet = []
      ∧ (RateLimiterMiddleware asciiLib (mapStore (fun _ => 0)) [ruleS1] []
          requestOther).1.panicked = true := by
  decide

/-! ## C8: response mapping -/

theorem digitChar_eq (d : Nat) (h : d < 10) : Nat.digitChar d = decimalDigit d := by
  interval_cases d <;> rfl

theorem toDigitsCore_eq (fuel : Nat) : ∀ (n : Nat) (ds : List Char), n < fuel →
    Nat.toDigitsCore 10 fuel n ds = decimalNat fuel n ++ ds := by
  induction fuel with
  | zero => intro n ds h; omega
  | succ fuel ih =>
    intro n ds h
    rw [Nat.toDigitsCore, decimalNat]
    by_cases h10 : n < 10
    · have h0 : n / 10 = 0 := by omega
      have hm : n % 10 = n := by omega
      simp [h0, hm, h10, digitChar_eq n h10]
    · have h0 : n / 10 ≠ 0 := by omega
      simp only [h0, if_false, h10]
      rw [ih (n / 10) _ (by omega), digitChar_eq (n % 10) (by omega)]
      simp

theorem natRepr_eq (n : Nat) : Nat.repr n = String.mk (decimalNat (n + 1) n) := by
  unfold Nat.repr Nat.toDigits
  rw [toDigitsCore_eq (n + 1) n [] (by omega)]
  simp [List.asString]

/-- The string `fmt.Sprintf("%d", n)` of the code is the decimal encoding of
`n`. -/
theorem fmtInt_eq_decimalEncoding (n : Int) : fmtInt n = decimalEncoding n := by
  unfold fmtInt decimalEncoding
  cases n with
  | ofNat m =>
    have h : ¬ (Int.ofNat m < 0) := by simp
    rw [if_neg h]
    show Nat.repr m = _
    rw [natRepr_eq]
    rfl
  | negSucc m =>
    have h : Int.negSucc m < 0 := Int.negSucc_lt_zero m
    rw [if_pos h]
    show "-" ++ Nat.repr (m + 1) = _
    rw [natRepr_eq]
    rfl

theorem handleResponse_limited (h : Header) :
    handleResponse ⟨some h, true, some .ErrTooManyRequests⟩
      = ⟨[.SetHeader "X-Ratelimit-Remaining" (decimalEncoding h.XRatelimitRemaining),
          .SetHeader "X-Ratelimit" (decimalEncoding h.XRatelimit),
          .SetHeader "X-Ratelimit-Retry-After" (decimalEncoding h.XRateLimitRetryAfter),
          .HttpError "Too Many Requests" 429], false⟩ := by
  simp only [← fmtInt_eq_decimalEncoding]
  rfl

theorem handleResponse_allowed (h : Header) :
    handleResponse ⟨some h, false, none⟩
      = ⟨[.SetHeader "X-Ratelimit-Remaining" (decimalEncoding h.XRatelimitRemaining),
          .SetHeader "X-Ratelimit" (decimalEncoding h.XRatelimit),
          .SetHeader "X-Ratelimit-Retry-After" (decimalEncoding h.XRateLimitRetryAfter),
          .ServeNext], false⟩ := by
  simp only [← fmtInt_eq_decimalEncoding]
  rfl

/-- C8.  For every request: (a) if the decision is Allowed (header-bearing, not
limited), its retry-after is 0 and the handler sets `X-Ratelimit-Remaining`,
`X-Ratelimit` and `X-Ratelimit-Retry-After` to the decimal encodings of
remaining, limit and 0 (the string "0"), then calls the downstream handler,
once; (b) if the decision is Limited, it sets the three headers to the decimal
encodings of the decision's remaining, limit and retry-after, answers 429 with
body "Too Many Requests" and never calls the downstream handler; (c) if the
decision is the engine error, it answers 500 and never calls the downstream
handler.  No run of these three kinds panics. -/
theorem response_mapping {σ : Type} (lib : GoLib) (S : CounterStore σ)
    (rules : List Rule) (s : σ) (r : HttpHeader) :
    (∀ h, (IsRateLimited lib S rules s r).resp.Header = some h →
        (IsRateLimited lib S rules s r).resp.Limited = false →
        h.XRateLimitRetryAfter = 0
          ∧ (RateLimiterMiddleware lib S rules s r).1
            = ⟨[.SetHeader "X-Ratelimit-Remaining" (decimalEncoding h.XRatelimitRemaining),
                .SetHeader "X-Ratelimit" (decimalEncoding h.XRatelimit),
                .SetHeader "X-Ratelimit-Retry-After" "0",
                .ServeNext], false⟩
          ∧ (RateLimiterMiddleware lib S rules s r).1.nextCalls = 1)
      ∧ ((IsRateLimited lib S rules s r).resp.Limited = true →
          ∃ h, (IsRateLimited lib S rules s r).resp.Header = some h
            ∧ (RateLimiterMiddleware lib S rules s r).1
              = ⟨[.SetHeader "X-Ratelimit-Remaining" (decimalEncoding h.XRatelimitRemaining),
                  .SetHeader "X-Ratelimit" (decimalEncoding h.XRatelimit),
                  .SetHeader "X-Ratelimit-Retry-After"
                    (decimalEncoding h.XRateLimitRetryAfter),
                  .HttpError "Too Many Requests" 429], false⟩
            ∧ (RateLimiterMiddleware lib S rules s r).1.nextCalls = 0)
      ∧ ((IsRateLimited lib S rules s r).resp.Error = some .ErrRateLimiterCheck →
          (RateLimiterMiddleware lib S rules s r).1
              = ⟨[.HttpError "Internal Server Error" 500], false⟩
            ∧ (RateLimiterMiddleware lib S rules s r).1.nextCalls = 0) := by
  have hrun : (RateLimiterMiddleware lib S rules s r).1
      = handleResponse (IsRateLimited lib S rules s r).resp := rfl
  rw [hrun]
  rcases IsRateLimited_resp_cases lib S rules s r with hc | hc | hc | ⟨h0, hc⟩ | ⟨h0, hz, hc⟩
    <;> rw [hc]
  · refine ⟨fun h hh _ => by simp at hh, fun hl => by simp at hl, fun he => by simp at he⟩
  · refine ⟨fun h hh _ => by simp at hh, fun hl => by simp at hl, fun he => by simp at he⟩
  · refine ⟨fun h hh _ => by simp at hh, fun hl => by simp at hl, fun _ => ⟨rfl, rfl⟩⟩
  · refine ⟨fun h _ hl => by simp at hl,
      fun _ => ⟨h0, rfl, handleResponse_limited h0, ?_⟩, fun he => by simp at he⟩
    rw [handleResponse_limited h0]
    rfl
  · refine ⟨fun h hh _ => ?_, fun hl => by simp at hl, fun he => by simp at he⟩
    simp only [Option.some.injEq] at hh
    subst hh
    have e0 : decimalEncoding 0 = "0" := by decide
    refine ⟨hz, ?_, ?_⟩
    · rw [handleResponse_allowed h0, hz, e0]
    · rw [handleResponse_allowed h0]
      rfl

/-- C8 at three runs of scenario S1.  First request on an empty store
(Allowed): the headers are "2", "3", "0" and the downstream handler is called
once.  Counter at 3 with 60 s left (Limited): the headers are "0", "3", "60",
the answer is 429 "Too Many Requests" and the downstream handler is not
called.  Unreachable store (engine error): the answer is 500 and the
downstream handler is not called. -/
theorem response_mapping_witness :
    ((IsRateLimited asciiLib (mapStore (fun _ => 0)) [ruleS1] [] requestS1).resp
          = ⟨some ⟨2, 3, 0⟩, false, none⟩
        ∧ (RateLimiterMiddleware asciiLib (mapStore (fun _ => 0)) [ruleS1] [] requestS1).1
          = ⟨[.SetHeader "X-Ratelimit-Remaining" "2",
              .SetHeader "X-Ratelimit" "3",
              .SetHeader "X-Ratelimit-Retry-After" "0",
              .ServeNext], false⟩
        ∧ (RateLimiterMiddleware asciiLib (mapStore (fun _ => 0)) [ruleS1] []
            requestS1).1.nextCalls = 1)
      ∧ ((IsRateLimited asciiLib (mapStore (fun _ => 60000000000)) [ruleS1]
            [("auth#login#alice", 3)] requestS1).resp
          = ⟨some ⟨0, 3, 60⟩, true, some .ErrTooManyRequests⟩
        ∧ (RateLimiterMiddleware asciiLib (mapStore (fun _ => 60000000000)) [ruleS1]
            [("auth#login#alice", 3)] requestS1).1
          = ⟨[.SetHeader "X-Ratelimit-Remaining" "0",
              .SetHeader "X-Ratelimit" "3",
              .SetHeader "X-Ratelimit-Retry-After" "60",
              .HttpError "Too Many Requests" 429], false⟩
        ∧ (RateLimiterMiddleware asciiLib (mapStore (fun _ => 60000000000)) [ruleS1]
            [("auth#login#alice", 3)] requestS1).1.nextCalls = 0)
      ∧ ((IsRateLimited asciiLib downStore [ruleS1] () requestS1).resp
          = ⟨none, false, some .ErrRateLimiterCheck⟩
        ∧ (RateLimiterMiddleware asciiLib downStore [ruleS1] () requestS1).1
          = ⟨[.HttpError "Internal Server Error" 500], false⟩
        ∧ (RateLimiterMiddleware asciiLib downStore [ruleS1] () requestS1).1.nextCalls
          = 0) := by
  have e0 : decimalEncoding 0 = "0" := by decide
  have e2 : decimalEncoding 2 = "2" := by decide
  have e3 : decimalEncoding 3 = "3" := by decide
  have e60 : decimalEncoding 60 = "60" := by decide
  have hb : (IsRateLimited asciiLib (mapStore (fun _ => 60000000000)) [ruleS1]
      [("auth#login#alice", 3)] requestS1).resp
      = ⟨some ⟨0, 3, 60⟩, true, some .ErrTooManyRequests⟩ := by decide!
  have ha := (response_mapping asciiLib (mapStore (fun _ => 0)) [ruleS1] []
    requestS1).1 ⟨2, 3, 0⟩ (by decide) (by decide)
  obtain ⟨h, hh, hrun, hnext⟩ := (response_mapping asciiLib
    (mapStore (fun _ => 60000000000)) [ruleS1] [("auth#login#alice", 3)]
    requestS1).2.1 (by rw [hb])
  rw [hb] at hh
  simp only [Option.some.injEq] at hh
  subst hh
  have hc := (response_mapping asciiLib downStore [ruleS1] () requestS1).2.2 (by decide)
  simp only [e0, e2, e3] at ha
  simp only [e0, e3, e60] at hrun
  exact ⟨⟨by decide, ha.2.1, ha.2.2⟩, ⟨hb, hrun, hnext⟩, ⟨by decide, hc.1, hc.2⟩⟩

/-! ## C9: validation of rule shape -/

/-- C9.  `validateRules` returns an error if some rule has an empty domain, an
empty `based_on`, an empty descriptor list, a descriptor with an empty key or
an empty value, or a `rate_limit` block with multiplier `<= 0`, empty unit or
`requests_per_unit <= 0`; and it returns no error if every rule has non-empty
domain and `based_on`, at least one descriptor, all descriptor keys and values
non-empty, and either no `rate_limit` block or one with unit among second,
minute, hour, day, multiplier `> 0` and `requests_per_unit > 0`. -/
theorem validateRules_shape (rules : List Rule) :
    ((∃ rule ∈ rules, rule.Domain = "" ∨ rule.BasedOn = "" ∨ rule.Descriptors = []
          ∨ (∃ d ∈ rule.Descriptors, d.Key = "" ∨ d.Value = "")
          ∨ (∃ rl, rule.RateLimit = some rl
              ∧ (rl.Multiplier ≤ 0 ∨ rl.Unit = "" ∨ rl.RequestsPerUnit ≤ 0))) →
        validateRules rules ≠ none)
      ∧ ((∀ rule ∈ rules, rule.Domain ≠ "" ∧ rule.BasedOn ≠ "" ∧ rule.Descriptors ≠ []
          ∧ (∀ d ∈ rule.Descriptors, d.Key ≠ "" ∧ d.Value ≠ "")
          ∧ (rule.RateLimit = none
              ∨ ∃ rl, rule.RateLimit = some rl
                  ∧ rl.Unit ∈ ["second", "minute", "hour", "day"]
                  ∧ 0 < rl.Multiplier ∧ 0 < rl.RequestsPerUnit)) →
        validateRules rules = none) := by
  constructor
  · rintro ⟨rule, hmem, hbad⟩ hnone
    obtain ⟨h1, h2, h3, h4, h5⟩ := (validateRules_eq_none_iff rules).mp hnone rule hmem
    rcases hbad with hb | hb | hb | ⟨d, hd, hb⟩ | ⟨rl, hrl, hb⟩
    · exact h1 hb
    · exact h2 hb
    · exact h3 hb
    · obtain ⟨hk, hv⟩ := h4 d hd
      rcases hb with hb | hb
      · exact hk hb
      · exact hv hb
    · obtain ⟨hm, hu, hr⟩ := h5 rl hrl
      rcases hb with hb | hb | hb
      · omega
      · exact hu hb
      · omega
  · intro hall
    rw [validateRules_eq_none_iff]
    intro rule hmem
    obtain ⟨h1, h2, h3, h4, h5⟩ := hall rule hmem
    refine ⟨h1, h2, h3, h4, ?_⟩
    intro rl hrl
    rcases h5 with h5 | ⟨rl2, hrl2, hu, hm, hr⟩
    · rw [h5] at hrl
      exact absurd hrl (by simp)
    · rw [hrl2] at hrl
      simp only [Option.some.injEq] at hrl
      subst hrl
      refine ⟨hm, ?_, hr⟩
      intro he
      rw [he] at hu
      revert hu
      decide

/-- C9 at a rule with an empty descriptor value (rejected) and at the rule set
made of the rule of S1 and the rule without `rate_limit` block (accepted). -/
theorem validateRules_shape_witness :
    validateRules [⟨"auth", "user_id", [⟨"endpoint", ""⟩], none⟩] ≠ none
      ∧ validateRules [ruleS1, ruleNoLimit] = none :=
  ⟨(validateRules_shape [⟨"auth", "user_id", [⟨"endpoint", ""⟩], none⟩]).1
      ⟨⟨"auth", "user_id", [⟨"endpoint", ""⟩], none⟩, by simp, by simp⟩,
    (validateRules_shape [ruleS1, ruleNoLimit]).2 (by decide)⟩

/-! ## C10: units outside second, minute, hour, day -/

/-- C10, counterexample.  The rule set `[ruleWeek]` (unit `week`, multiplier 1,
one request per unit): the unit is none of the four names, `validateRules`
returns no error, and `LoadRules` installs the document. -/
theorem unknown_unit_counterexample :
    (∃ rl, ruleWeek.RateLimit = some rl ∧ rl.Unit ∉ ["second", "minute", "hour", "day"])
      ∧ validateRules [ruleWeek] = none
      ∧ LoadRules (Except.ok ()) (fun _ => Except.ok [ruleWeek]) [ruleS1]
          = (none, [ruleWeek]) := by
  refine ⟨⟨⟨"week", 1, 1⟩, rfl, by decide⟩, by decide, by decide⟩

/-- C10, amended.  Of the unit, `validateRules` checks only that it is not
empty.  (1) A rule set containing a rule whose `rate_limit` block has an empty
unit is rejected, so `LoadRules` fails and leaves the active rules unchanged.
(2) A rule set whose rules are otherwise well-formed and whose `rate_limit`
blocks have any non-empty unit, also one outside second, minute, hour, day
(such as `week`), passes `validateRules`, and `LoadRules` installs it.
(3) For a unit outside the four names `getExpirationDuration` returns one
minute, whatever the multiplier. -/
theorem unit_checked_for_emptiness_only {α : Type} (rules current : List Rule) (file : α)
    (unmarshal : α → Except String (List Rule)) (hparse : unmarshal file = .ok rules) :
    ((∃ rule ∈ rules, ∃ rl, rule.RateLimit = some rl ∧ rl.Unit = "") →
        validateRules rules ≠ none
          ∧ (LoadRules (.ok file) unmarshal current).1 ≠ none
          ∧ (LoadRules (.ok file) unmarshal current).2 = current)
      ∧ ((∀ rule ∈ rules, rule.Domain ≠ "" ∧ rule.BasedOn ≠ "" ∧ rule.Descriptors ≠ []
            ∧ (∀ d ∈ rule.Descriptors, d.Key ≠ "" ∧ d.Value ≠ "")
            ∧ (∀ rl, rule.RateLimit = some rl →
                rl.Unit ≠ "" ∧ 0 < rl.Multiplier ∧ 0 < rl.RequestsPerUnit)) →
          validateRules rules = none
            ∧ LoadRules (.ok file) unmarshal current = (none, rules))
      ∧ (∀ (unit : String) (multiplier : Int), unit ∉ ["second", "minute", "hour", "day"] →
          getExpirationDuration unit multiplier = 60000000000) := by
  refine ⟨?_, ?_, ?_⟩
  · rintro ⟨rule, hmem, rl, hrl, hu⟩
    have hne : validateRules rules ≠ none := by
      intro hnone
      exact ((validateRules_eq_none_iff rules).mp hnone rule hmem).2.2.2.2 rl hrl |>.2.1 hu
    refine ⟨hne, ?_, ?_⟩
    · cases hv : validateRules rules with
      | none => exact absurd hv hne
      | some err => simp [LoadRules, hparse, hv]
    · cases hv : validateRules rules with
      | none => exact absurd hv hne
      | some err => simp [LoadRules, hparse, hv]
  · intro hall
    have hv : validateRules rules = none := by
      rw [validateRules_eq_none_iff]
      intro rule hmem
      obtain ⟨h1, h2, h3, h4, h5⟩ := hall rule hmem
      exact ⟨h1, h2, h3, h4, fun rl hrl => ⟨(h5 rl hrl).2.1, (h5 rl hrl).1, (h5 rl hrl).2.2⟩⟩
    exact ⟨hv, by simp [LoadRules, hparse, hv]⟩
  · intro unit multiplier hu
    simp only [List.mem_cons, List.mem_singleton, List.not_mem_nil, or_false, not_or] at hu
    obtain ⟨h1, h2, h3, h4⟩ := hu
    unfold getExpirationDuration
    rw [if_neg h1, if_neg h2, if_neg h3, if_neg h4]

/-- C10, amended, at the rule set `[ruleWeek]`: accepted and installed, with a
window of one minute. -/
theorem unit_checked_for_emptiness_only_witness :
    (validateRules [ruleWeek] = none
        ∧ LoadRules (Except.ok ()) (fun _ => Except.ok [ruleWeek]) [ruleS1]
          = (none, [ruleWeek]))
      ∧ getExpirationDuration "week" 1 = 60000000000 :=
  ⟨(unit_checked_for_emptiness_only [ruleWeek] [ruleS1] () (fun _ => Except.ok [ruleWeek])
      rfl).2.1 (by decide),
    (unit_checked_for_emptiness_only [ruleWeek] [ruleS1] () (fun _ => Except.ok [ruleWeek])
      rfl).2.2 "week" 1 (by decide)⟩

/-! ## C11: `LoadRules` replaces the rule set or leaves it alone -/

/-- C11.  `LoadRules` as a function of the result of reading the file, of the
parser and of the active rule set.  Whenever it returns an error the active
rule set afterwards is the one before the call, and it returns an error in
each of the three failure cases (read failure, parse failure, validation
failure).  Whenever it returns nil, the file was read, the parser returned a
list that passes `validateRules`, and the active rule set afterwards is equal
to that list: same rules, same order. -/
theorem LoadRules_all_or_nothing {α : Type} (readFile : Except String α)
    (unmarshal : α → Except String (List Rule)) (rules : List Rule) :
    ((LoadRules readFile unmarshal rules).1 ≠ none →
        (LoadRules readFile unmarshal rules).2 = rules)
      ∧ ((LoadRules readFile unmarshal rules).1 = none →
          ∃ file, readFile = .ok file
            ∧ unmarshal file = .ok (LoadRules readFile unmarshal rules).2
            ∧ validateRules (LoadRules readFile unmarshal rules).2 = none)
      ∧ (((∃ err, readFile = .error err)
            ∨ (∃ file err, readFile = .ok file ∧ unmarshal file = .error err)
            ∨ (∃ file parsed, readFile = .ok file ∧ unmarshal file = .ok parsed
                ∧ validateRules parsed ≠ none)) →
          (LoadRules readFile unmarshal rules).1 ≠ none) := by
  unfold LoadRules
  cases hr : readFile with
  | error err => simp
  | ok file =>
    dsimp only
    cases hu : unmarshal file with
    | error err => simp [hu]
    | ok parsed =>
      dsimp only
      cases hv : validateRules parsed with
      | some err => simp [hu, hv]
      | none => simp [hu, hv]

/-- C11 at a document that parses to `[ruleNoLimit, ruleS1]` (installed, in
that order) and at one that parses to a rule with an empty domain (rejected,
the active rules stay `[ruleS1]`). -/
theorem LoadRules_all_or_nothing_witness :
    LoadRules (Except.ok ()) (fun _ => Except.ok [ruleNoLimit, ruleS1]) [ruleS1]
        = (none, [ruleNoLimit, ruleS1])
      ∧ (LoadRules (Except.ok ()) (fun _ => Except.ok [⟨"", "user_id", [], none⟩])
          [ruleS1]).2 = [ruleS1] :=
  ⟨by decide,
    (LoadRules_all_or_nothing (Except.ok ()) (fun _ => Except.ok [⟨"", "user_id", [], none⟩])
      [ruleS1]).1 (by decide)⟩

/-! ## C17: `Expire` is called only after `Incr` returned 1 -/

theorem limitBranch_expire_mem {σ : Type} (S : CounterStore σ) (s : σ) (rule : Rule)
    (rl : RateLimit) (userID key : String) (d : Int)
    (h : StoreCall.Expire key d ∈ (limitBranch S s rule rl userID).calls) :
    key = getRedisKey rule rule.Descriptors userID
      ∧ (S.Incr s key).1 = some 1
      ∧ d = getExpirationDuration rl.Unit rl.Multiplier := by
  cases hi : (S.Incr s (getRedisKey rule rule.Descriptors userID)).1 with
  | none =>
    rw [limitBranch_incr_error S s rule rl userID hi] at h
    simp at h
  | some n =>
    by_cases hgt : rl.RequestsPerUnit < n
    · cases ht : (S.TTL (S.Incr s (getRedisKey rule rule.Descriptors userID)).2
          (getRedisKey rule rule.Descriptors userID)).1 with
      | none =>
        rw [limitBranch_ttl_error S s rule rl userID n hi hgt ht] at h
        simp at h
      | some ttl =>
        rw [limitBranch_over S s rule rl userID n ttl hi hgt ht] at h
        simp at h
    · by_cases h1 : n = 1
      · subst h1
        rw [limitBranch_first S s rule rl userID hi (by omega)] at h
        simp only [List.mem_cons, reduceCtorEq, StoreCall.Expire.injEq, List.mem_singleton,
          List.not_mem_nil, or_false, false_or] at h
        obtain ⟨hk, hd⟩ := h
        subst hk
        exact ⟨rfl, hi, hd⟩
      · rw [limitBranch_within S s rule rl userID n hi (by omega) h1] at h
        simp at h

theorem IsRateLimited_expire_mem {σ : Type} (lib : GoLib) (S : CounterStore σ)
    (rules : List Rule) (s : σ) (r : HttpHeader) (key : String) (d : Int)
    (h : StoreCall.Expire key d ∈ (IsRateLimited lib S rules s r).calls) :
    ∃ rule rl, selectedRule lib rules r = some (rule, rl) ∧ key = counterKey lib rule r
      ∧ (S.Incr s key).1 = some 1 ∧ d = getExpirationDuration rl.Unit rl.Multiplier := by
  rw [IsRateLimited_eq] at h
  cases hsel : selectedRule lib rules r with
  | none =>
    rw [hsel] at h
    simp at h
  | some p =>
    obtain ⟨rule, rl⟩ := p
    rw [hsel] at h
    exact ⟨rule, rl, rfl, limitBranch_expire_mem S s rule rl _ key d h⟩

/-- C17.  `IsRateLimited` calls `Expire` on a key only in an execution in which
`Incr` on that key returned exactly 1 (the key is then the counter key of the
rule the loop stopped at, and the duration is that rule's window).  When
`Incr` on the counter key returns any `n` other than 1, no `Expire` call is
made.  On the map store, once the counter of the key is at least 1 (the window
is open), a further request makes no `Expire` call. -/
theorem expire_only_after_first_incr {σ : Type} (lib : GoLib) (S : CounterStore σ)
    (rules : List Rule) (s : σ) (r : HttpHeader) :
    (∀ (key : String) (d : Int),
        StoreCall.Expire key d ∈ (IsRateLimited lib S rules s r).calls →
        (S.Incr s key).1 = some 1
          ∧ ∃ rule rl, selectedRule lib rules r = some (rule, rl)
              ∧ key = counterKey lib rule r
              ∧ d = getExpirationDuration rl.Unit rl.Multiplier)
      ∧ (∀ (rule : Rule) (rl : RateLimit) (n : Int),
          selectedRule lib rules r = some (rule, rl) →
          (S.Incr s (counterKey lib rule r)).1 = some n → n ≠ 1 →
          ∀ (key : String) (d : Int),
            StoreCall.Expire key d ∉ (IsRateLimited lib S rules s r).calls)
      ∧ (∀ (ttlOf : String → Int) (m : CounterMap) (rule : Rule) (rl : RateLimit),
          selectedRule lib rules r = some (rule, rl) →
          1 ≤ counterValue m (counterKey lib rule r) →
          ∀ (key : String) (d : Int),
            StoreCall.Expire key d ∉ (IsRateLimited lib (mapStore ttlOf) rules m r).calls) := by
  refine ⟨?_, ?_, ?_⟩
  · intro key d h
    obtain ⟨rule, rl, hsel, hk, hi, hd⟩ := IsRateLimited_expire_mem lib S rules s r key d h
    exact ⟨hi, rule, rl, hsel, hk, hd⟩
  · intro rule rl n hsel hi hn key d h
    obtain ⟨rule2, rl2, hsel2, hk, hi2, -⟩ := IsRateLimited_expire_mem lib S rules s r key d h
    rw [hsel] at hsel2
    simp only [Option.some.injEq, Prod.mk.injEq] at hsel2
    obtain ⟨hr, -⟩ := hsel2
    subst hr
    rw [hk, hi] at hi2
    exact hn (Option.some.inj hi2)
  · intro ttlOf m rule rl hsel hc key d h
    obtain ⟨rule2, rl2, hsel2, hk, hi2, -⟩ :=
      IsRateLimited_expire_mem lib (mapStore ttlOf) rules m r key d h
    rw [hsel] at hsel2
    simp only [Option.some.injEq, Prod.mk.injEq] at hsel2
    obtain ⟨hr, -⟩ := hsel2
    subst hr
    rw [hk, (mapStore_incr ttlOf m _).1] at hi2
    have := Option.some.inj hi2
    omega

/-- C17 at scenario S1.  On the empty store the first request calls `Expire`
and `Incr` had returned 1; with the counter at 1 the second request
(`Incr` returns 2) calls no `Expire`. -/
theorem expire_only_after_first_incr_witness :
    StoreCall.Expire "auth#login#alice" 60000000000
        ∈ (IsRateLimited asciiLib (mapStore (fun _ => 0)) [ruleS1] [] requestS1).calls
      ∧ ((mapStore (fun _ => 0)).Incr [] "auth#login#alice").1 = some 1
      ∧ ((mapStore (fun _ => 0)).Incr [("auth#login#alice", 1)]
          (counterKey asciiLib ruleS1 requestS1)).1 = some 2
      ∧ StoreCall.Expire "auth#login#alice" 60000000000
          ∉ (IsRateLimited asciiLib (mapStore (fun _ => 0)) [ruleS1]
              [("auth#login#alice", 1)] requestS1).calls :=
  ⟨by decide,
    ((expire_only_after_first_incr asciiLib (mapStore (fun _ => 0)) [ruleS1] []
      requestS1).1 "auth#login#alice" 60000000000 (by decide)).1,
    by decide,
    (expire_only_after_first_incr asciiLib (mapStore (fun _ => 0)) [ruleS1]
      [("auth#login#alice", 1)] requestS1).2.1 ruleS1 ⟨"minute", 1, 3⟩ 2 (by decide)
      (by decide) (by decide) "auth#login#alice" 60000000000⟩

/-! ## C18: store failures -/

theorem selectedRule_isSome (lib : GoLib) (rules : List Rule) (r : HttpHeader)
    (h : ∃ rule ∈ rules, requestMatches lib r rule = true ∧ rule.RateLimit.isSome = true) :
    (selectedRule lib rules r).isSome = true := by
  obtain ⟨rule, hmem, hm, hrl⟩ := h
  cases hsel : selectedRule lib rules r with
  | some p => rfl
  | none =>
    unfold selectedRule at hsel
    rw [List.findSome?_eq_none_iff] at hsel
    have := hsel rule hmem
    rw [if_pos hm] at this
    cases hr : rule.RateLimit with
    | none => rw [hr] at hrl; exact absurd hrl (by simp)
    | some rl => rw [hr] at this; simp at this

/-- C18.  For the rule the loop stops at (one exists whenever the request
matches a rule with a `rate_limit` block): if `Incr` fails, `IsRateLimited`
returns `ErrRateLimiterCheck` with nil header and `Limited = false` after
exactly one store call, the `Incr`; if `Incr` returns `n > requests_per_unit`
and `TTL` fails, it returns `ErrRateLimiterCheck` with nil header after the
calls `Incr`, `TTL`.  A request that matches no rule yields the Unmatched
outcome for every store and store state, with no store call and the store
unchanged. -/
theorem store_failure_is_engine_error {σ : Type} (lib : GoLib) (S : CounterStore σ)
    (rules : List Rule) (s : σ) (r : HttpHeader) :
    ((∃ rule ∈ rules, requestMatches lib r rule = true ∧ rule.RateLimit.isSome = true) →
        (selectedRule lib rules r).isSome = true)
      ∧ (∀ (rule : Rule) (rl : RateLimit), selectedRule lib rules r = some (rule, rl) →
          (S.Incr s (counterKey lib rule r)).1 = none →
          (IsRateLimited lib S rules s r).resp = ⟨none, false, some .ErrRateLimiterCheck⟩
            ∧ (IsRateLimited lib S rules s r).calls = [.Incr (counterKey lib rule r)])
      ∧ (∀ (rule : Rule) (rl : RateLimit) (n : Int),
          selectedRule lib rules r = some (rule, rl) →
          (S.Incr s (counterKey lib rule r)).1 = some n → rl.RequestsPerUnit < n →
          (S.TTL (S.Incr s (counterKey lib rule r)).2 (counterKey lib rule r)).1 = none →
          (IsRateLimited lib S rules s r).resp = ⟨none, false, some .ErrRateLimiterCheck⟩
            ∧ (IsRateLimited lib S rules s r).calls
              = [.Incr (counterKey lib rule r), .TTL (counterKey lib rule r)])
      ∧ ((∀ rule ∈ rules, requestMatches lib r rule = false) →
          IsRateLimited lib S rules s r = ⟨⟨none, false, some .ErrNoMatchingRule⟩, s, []⟩) := by
  refine ⟨selectedRule_isSome lib rules r, ?_, ?_, ?_⟩
  · intro rule rl hsel hi
    rw [IsRateLimited_selected lib S rules s r rule rl hsel,
      limitBranch_incr_error S s rule rl _ hi]
    exact ⟨rfl, rfl⟩
  · intro rule rl n hsel hi hn ht
    rw [IsRateLimited_selected lib S rules s r rule rl hsel,
      limitBranch_ttl_error S s rule rl _ n hi hn ht]
    exact ⟨rfl, rfl⟩
  · intro hnone
    rw [IsRateLimited_eq, selectedRule_eq_none lib r rules
      (fun x hx hm => by rw [hnone x hx] at hm; exact absurd hm (by simp))]
    have hany : rules.any (requestMatches lib r) = false := by
      rw [List.any_eq_false]
      intro x hx
      simp [hnone x hx]
    simp [hany]

/-- C18 at scenario S1.  On the unreachable store the matching request gets the
engine error after one `Incr`, and the request of S3 (no rule matches) is
Unmatched with no store call; on a store where `Incr` answers 4 and `TTL`
fails the matching request gets the engine error after `Incr`, `TTL`. -/
theorem store_failure_is_engine_error_witness :
    selectedRule asciiLib [ruleS1] requestS1 = some (ruleS1, ⟨"minute", 1, 3⟩)
      ∧ ((IsRateLimited asciiLib downStore [ruleS1] () requestS1).resp
            = ⟨none, false, some .ErrRateLimiterCheck⟩
          ∧ (IsRateLimited asciiLib downStore [ruleS1] () requestS1).calls
            = [.Incr (counterKey asciiLib ruleS1 requestS1)])
      ∧ ((IsRateLimited asciiLib ttlDownStore [ruleS1] () requestS1).resp
            = ⟨none, false, some .ErrRateLimiterCheck⟩
          ∧ (IsRateLimited asciiLib ttlDownStore [ruleS1] () requestS1).calls
            = [.Incr (counterKey asciiLib ruleS1 requestS1),
               .TTL (counterKey asciiLib ruleS1 requestS1)])
      ∧ IsRateLimited asciiLib downStore [ruleS1] () requestOther
          = ⟨⟨none, false, some .ErrNoMatchingRule⟩, (), []⟩ :=
  ⟨by decide,
    (store_failure_is_engine_error asciiLib downStore [ruleS1] () requestS1).2.1 ruleS1
      ⟨"minute", 1, 3⟩ (by decide) (by decide),
    (store_failure_is_engine_error asciiLib ttlDownStore [ruleS1] () requestS1).2.2.1 ruleS1
      ⟨"minute", 1, 3⟩ 4 (by decide) (by decide) (by decide) (by decide),
    (store_failure_is_engine_error asciiLib downStore [ruleS1] () requestOther).2.2.2
      (by decide)⟩

/-! ## Strings: joining with a separator -/

theorem joinedBy_append_head (sep x y : String) (bs : List String) :
    joinedBy sep ((x ++ y) :: bs) = x ++ joinedBy sep (y :: bs) := by
  cases bs with
  | nil => rfl
  | cons c cs => simp [joinedBy, String.append_assoc]

theorem intercalate_go_eq_joinedBy (sep : String) (as : List String) :
    ∀ acc : String, String.intercalate.go acc sep as = joinedBy sep (acc :: as) := by
  induction as with
  | nil => intro acc; rfl
  | cons b bs ih =>
    intro acc
    rw [String.intercalate.go, ih, joinedBy_append_head]
    rfl

theorem intercalate_eq_joinedBy (sep : String) (l : List String) :
    sep.intercalate l = joinedBy sep l := by
  cases l with
  | nil => rfl
  | cons a as => exact intercalate_go_eq_joinedBy sep as a

theorem joinedBy_cons_of_ne_nil (sep a : String) (l : List String) (h : l ≠ []) :
    joinedBy sep (a :: l) = a ++ sep ++ joinedBy sep l := by
  cases l with
  | nil => exact absurd rfl h
  | cons b bs => rfl

theorem joinedBy_append_singleton (sep z : String) (l : List String) (h : l ≠ []) :
    joinedBy sep (l ++ [z]) = joinedBy sep l ++ sep ++ z := by
  induction l with
  | nil => exact absurd rfl h
  | cons a as ih =>
    cases as with
    | nil => rfl
    | cons b bs =>
      have ih2 := ih (by simp)
      rw [List.cons_append, joinedBy_cons_of_ne_nil sep a _ (by simp), ih2,
        joinedBy_cons_of_ne_nil sep a _ (by simp)]
      simp [String.append_assoc]

theorem getRedisKey_eq_joinedBy (rule : Rule) (descriptors : List Descriptor)
    (userID : String) (h : descriptors ≠ []) :
    getRedisKey rule descriptors userID
      = joinedBy "#" (rule.Domain :: descriptors.map (fun d => d.Value) ++ [userID]) := by
  have hne : descriptors.map (fun d => d.Value) ≠ [] := by simpa using h
  unfold getRedisKey
  simp only [intercalate_eq_joinedBy]
  rw [List.cons_append, joinedBy_cons_of_ne_nil "#" rule.Domain _ (by simp),
    joinedBy_append_singleton "#" userID _ hne]
  simp [String.append_assoc]

theorem joinedBy_data (sep : String) (l : List String) :
    (joinedBy sep l).data = List.intercalate sep.data (l.map String.data) := by
  induction l with
  | nil => rfl
  | cons a as ih =>
    cases as with
    | nil => simp [joinedBy, List.intercalate]
    | cons b bs =>
      rw [joinedBy_cons_of_ne_nil sep a _ (by simp)]
      simp only [String.data_append, ih]
      simp [List.intercalate, List.append_assoc]

theorem string_append_left_cancel (p a b : String) (h : p ++ a = p ++ b) : a = b := by
  have h2 := congrArg String.data h
  simp only [String.data_append] at h2
  exact String.ext (List.append_cancel_left h2)

/-! ## C15: format of the counter key -/

theorem limitBranch_calls_cases {σ : Type} (S : CounterStore σ) (s : σ) (rule : Rule)
    (rl : RateLimit) (userID : String) :
    (limitBranch S s rule rl userID).calls = [.Incr (getRedisKey rule rule.Descriptors userID)]
      ∨ (limitBranch S s rule rl userID).calls
          = [.Incr (getRedisKey rule rule.Descriptors userID),
             .TTL (getRedisKey rule rule.Descriptors userID)]
      ∨ (limitBranch S s rule rl userID).calls
          = [.Incr (getRedisKey rule rule.Descriptors userID),
             .Expire (getRedisKey rule rule.Descriptors userID)
               (getExpirationDuration rl.Unit rl.Multiplier)] := by
  cases hi : (S.Incr s (getRedisKey rule rule.Descriptors userID)).1 with
  | none =>
    rw [limitBranch_incr_error S s rule rl userID hi]
    exact Or.inl rfl
  | some n =>
    by_cases hgt : rl.RequestsPerUnit < n
    · cases ht : (S.TTL (S.Incr s (getRedisKey rule rule.Descriptors userID)).2
          (getRedisKey rule rule.Descriptors userID)).1 with
      | none =>
        rw [limitBranch_ttl_error S s rule rl userID n hi hgt ht]
        exact Or.inr (Or.inl rfl)
      | some ttl =>
        rw [limitBranch_over S s rule rl userID n ttl hi hgt ht]
        exact Or.inr (Or.inl rfl)
    · by_cases h1 : n = 1
      · subst h1
        rw [limitBranch_first S s rule rl userID hi (by omega)]
        exact Or.inr (Or.inr rfl)
      · rw [limitBranch_within S s rule rl userID n hi (by omega) h1]
        exact Or.inl rfl

/-- C15.  (1) For a non-empty descriptor list, `getRedisKey` returns the domain,
the descriptor values in rule order and the identity, joined by `#`.  (2) The
result depends on the rule only through its domain and on the descriptors only
through their values: descriptor keys and `based_on` do not influence it.
(3) For the rule the loop stops at, the first store call of `IsRateLimited` is
`Incr` on the key built with the identity `r.Header.Get(rule.BasedOn)`.
(4) That identity is the first value of the header stored under the canonical
form of the name, and the empty string when the header is absent. -/
theorem counter_key_format {σ : Type} (lib : GoLib) (S : CounterStore σ)
    (rules : List Rule) (s : σ) (r : HttpHeader) :
    (∀ (rule : Rule) (descriptors : List Descriptor) (userID : String), descriptors ≠ [] →
        getRedisKey rule descriptors userID
          = joinedBy "#" (rule.Domain :: descriptors.map (fun d => d.Value) ++ [userID]))
      ∧ (∀ (rule1 rule2 : Rule) (ds1 ds2 : List Descriptor) (userID : String),
          rule1.Domain = rule2.Domain →
          ds1.map (fun d => d.Value) = ds2.map (fun d => d.Value) →
          getRedisKey rule1 ds1 userID = getRedisKey rule2 ds2 userID)
      ∧ (∀ (rule : Rule) (rl : RateLimit), selectedRule lib rules r = some (rule, rl) →
          (IsRateLimited lib S rules s r).calls.head?
            = some (.Incr (getRedisKey rule rule.Descriptors
                (HttpHeader.Get lib r rule.BasedOn))))
      ∧ (∀ (name : String),
          (∀ v vs, List.lookup (lib.CanonicalMIMEHeaderKey name) r = some (v :: vs) →
              HttpHeader.Get lib r name = v)
            ∧ (List.lookup (lib.CanonicalMIMEHeaderKey name) r = none →
              HttpHeader.Get lib r name = "")) := by
  refine ⟨fun rule ds id h => getRedisKey_eq_joinedBy rule ds id h, ?_, ?_, ?_⟩
  · intro rule1 rule2 ds1 ds2 id hd hv
    unfold getRedisKey
    simp only [hd, hv]
  · intro rule rl hsel
    rw [IsRateLimited_selected lib S rules s r rule rl hsel]
    rcases limitBranch_calls_cases S s rule rl (HttpHeader.Get lib r rule.BasedOn)
      with h | h | h <;> rw [h] <;> rfl
  · intro name
    constructor
    · intro v vs h
      simp [HttpHeader.Get, h]
    · intro h
      simp [HttpHeader.Get, h]

/-- C15 at scenario S1: the key is `auth#login#alice`, and with the `user_id`
header absent it is `auth#login#` (empty identity). -/
theorem counter_key_format_witness :
    getRedisKey ruleS1 ruleS1.Descriptors "alice" = joinedBy "#" ["auth", "login", "alice"]
      ∧ (IsRateLimited asciiLib (mapStore (fun _ => 0)) [ruleS1] [] requestS1).calls.head?
          = some (.Incr (getRedisKey ruleS1 ruleS1.Descriptors
              (HttpHeader.Get asciiLib requestS1 ruleS1.BasedOn)))
      ∧ HttpHeader.Get asciiLib requestS1 "user_id" = "alice"
      ∧ HttpHeader.Get asciiLib (mkRequest [("domain", "auth"), ("endpoint", "login")])
          "user_id" = "" :=
  have h := counter_key_format asciiLib (mapStore (fun _ => 0)) [ruleS1] [] requestS1
  ⟨h.1 ruleS1 ruleS1.Descriptors "alice" (by decide),
    h.2.2.1 ruleS1 ⟨"minute", 1, 3⟩ (by decide),
    (h.2.2.2 "user_id").1 "alice" [] (by decide),
    ((counter_key_format asciiLib (mapStore (fun _ => 0)) [ruleS1] []
      (mkRequest [("domain", "auth"), ("endpoint", "login")])).2.2.2 "user_id").2
      (by decide)⟩

/-! ## C16: one counter per identity -/

theorem lookup_filter_ne (m : CounterMap) (key k : String) (h : k ≠ key) :
    List.lookup k (m.filter (fun e => e.1 != key)) = List.lookup k m := by
  induction m with
  | nil => rfl
  | cons e rest ih =>
    obtain ⟨ek, ev⟩ := e
    by_cases hek : ek = key
    · subst hek
      have hk : (k == ek) = false := by simpa using h
      simp [List.filter, List.lookup, hk, ih]
    · have hne : (ek != key) = true := by simpa using hek
      simp only [List.filter, hne, List.lookup]
      rw [ih]

theorem mapStore_incr_other (ttlOf : String → Int) (m : CounterMap) (key k : String)
    (h : k ≠ key) :
    counterValue ((mapStore ttlOf).Incr m key).2 k = counterValue m k := by
  have hk : (k == key) = false := by simpa using h
  unfold mapStore counterValue
  cases hl : List.lookup key m with
  | none => simp [hl, List.lookup, hk]
  | some v => simp [hl, List.lookup, hk, lookup_filter_ne m key k h]

theorem mapStore_expire_other (ttlOf : String → Int) (m : CounterMap) (key k : String)
    (d : Int) (h : k ≠ key) :
    counterValue ((mapStore ttlOf).Expire m key d).2 k = counterValue m k := by
  unfold mapStore counterValue
  by_cases hd : d ≤ 0
  · simp [hd, lookup_filter_ne m key k h]
  · simp [hd]

theorem limitBranch_mapStore_other (ttlOf : String → Int) (m : CounterMap) (rule : Rule)
    (rl : RateLimit) (userID k : String) (h : k ≠ getRedisKey rule rule.Descriptors userID) :
    counterValue (limitBranch (mapStore ttlOf) m rule rl userID).store k = counterValue m k := by
  obtain ⟨hi, -⟩ := mapStore_incr ttlOf m (getRedisKey rule rule.Descriptors userID)
  have hincr := mapStore_incr_other ttlOf m _ k h
  by_cases hgt : rl.RequestsPerUnit
      < counterValue m (getRedisKey rule rule.Descriptors userID) + 1
  · rw [limitBranch_over (mapStore ttlOf) m rule rl userID _
      (ttlOf (getRedisKey rule rule.Descriptors userID)) hi hgt rfl]
    exact hincr
  · by_cases h1 : counterValue m (getRedisKey rule rule.Descriptors userID) + 1 = 1
    · rw [h1] at hi
      rw [limitBranch_first (mapStore ttlOf) m rule rl userID hi (by omega)]
      show counterValue ((mapStore ttlOf).Expire _ _ _).2 k = _
      rw [mapStore_expire_other ttlOf _ _ k _ h]
      exact hincr
    · rw [limitBranch_within (mapStore ttlOf) m rule rl userID _ hi (by omega) h1]
      exact hincr

theorem limitBranch_mapStore_resp_congr (ttlOf : String → Int) (m1 m2 : CounterMap)
    (rule : Rule) (rl : RateLimit) (userID : String)
    (h : counterValue m1 (getRedisKey rule rule.Descriptors userID)
      = counterValue m2 (getRedisKey rule rule.Descriptors userID)) :
    (limitBranch (mapStore ttlOf) m1 rule rl userID).resp
      = (limitBranch (mapStore ttlOf) m2 rule rl userID).resp := by
  obtain ⟨hi1, -⟩ := mapStore_incr ttlOf m1 (getRedisKey rule rule.Descriptors userID)
  obtain ⟨hi2, -⟩ := mapStore_incr ttlOf m2 (getRedisKey rule rule.Descriptors userID)
  rw [h] at hi1
  by_cases hgt : rl.RequestsPerUnit
      < counterValue m2 (getRedisKey rule rule.Descriptors userID) + 1
  · rw [limitBranch_over (mapStore ttlOf) m1 rule rl userID _
        (ttlOf (getRedisKey rule rule.Descriptors userID)) hi1 hgt rfl,
      limitBranch_over (mapStore ttlOf) m2 rule rl userID _
        (ttlOf (getRedisKey rule rule.Descriptors userID)) hi2 hgt rfl]
  · by_cases h1 : counterValue m2 (getRedisKey rule rule.Descriptors userID) + 1 = 1
    · rw [h1] at hi1 hi2
      rw [limitBranch_first (mapStore ttlOf) m1 rule rl userID hi1 (by omega),
        limitBranch_first (mapStore ttlOf) m2 rule rl userID hi2 (by omega)]
    · rw [limitBranch_within (mapStore ttlOf) m1 rule rl userID _ hi1 (by omega) h1,
        limitBranch_within (mapStore ttlOf) m2 rule rl userID _ hi2 (by omega) h1]

theorem getRedisKey_identity_injective (rule : Rule) (descriptors : List Descriptor)
    (id1 id2 : String)
    (h : getRedisKey rule descriptors id1 = getRedisKey rule descriptors id2) : id1 = id2 := by
  unfold getRedisKey at h
  exact string_append_left_cancel _ id1 id2 h

/-- C16.  For every rule and identities `id1 != id2` the two counter keys
differ.  Hence, on the map store, for two requests at which the loop stops at
the same rule and which carry different identities, serving the first leaves
the counter of the second untouched, and the second gets the same response
whether or not the first was served before it. -/
theorem identity_isolation :
    (∀ (rule : Rule) (id1 id2 : String), id1 ≠ id2 →
        getRedisKey rule rule.Descriptors id1 ≠ getRedisKey rule rule.Descriptors id2)
      ∧ (∀ (lib : GoLib) (rules : List Rule) (ttlOf : String → Int) (m : CounterMap)
          (r1 r2 : HttpHeader) (rule : Rule) (rl : RateLimit),
          selectedRule lib rules r1 = some (rule, rl) →
          selectedRule lib rules r2 = some (rule, rl) →
          HttpHeader.Get lib r1 rule.BasedOn ≠ HttpHeader.Get lib r2 rule.BasedOn →
          counterValue (IsRateLimited lib (mapStore ttlOf) rules m r1).store
              (counterKey lib rule r2) = counterValue m (counterKey lib rule r2)
            ∧ (IsRateLimited lib (mapStore ttlOf) rules
                (IsRateLimited lib (mapStore ttlOf) rules m r1).store r2).resp
              = (IsRateLimited lib (mapStore ttlOf) rules m r2).resp) := by
  constructor
  · intro rule id1 id2 hne h
    exact hne (getRedisKey_identity_injective rule rule.Descriptors id1 id2 h)
  · intro lib rules ttlOf m r1 r2 rule rl h1 h2 hid
    have hkey : counterKey lib rule r2 ≠ counterKey lib rule r1 := by
      intro h
      exact hid (getRedisKey_identity_injective rule rule.Descriptors _ _ h).symm
    have hstore : counterValue (IsRateLimited lib (mapStore ttlOf) rules m r1).store
        (counterKey lib rule r2) = counterValue m (counterKey lib rule r2) := by
      rw [IsRateLimited_selected lib (mapStore ttlOf) rules m r1 rule rl h1]
      exact limitBranch_mapStore_other ttlOf m rule rl _ _ hkey
    refine ⟨hstore, ?_⟩
    rw [IsRateLimited_selected lib (mapStore ttlOf) rules _ r2 rule rl h2,
      IsRateLimited_selected lib (mapStore ttlOf) rules m r2 rule rl h2]
    exact limitBranch_mapStore_resp_congr ttlOf _ m rule rl _ hstore

/-- C16 at scenario S2: after three requests of alice her counter is at 3; a
request of bob leaves it there and alice is limited exactly as without it. -/
theorem identity_isolation_witness :
    getRedisKey ruleS1 ruleS1.Descriptors "alice" ≠ getRedisKey ruleS1 ruleS1.Descriptors "bob"
      ∧ counterValue (IsRateLimited asciiLib (mapStore (fun _ => 0)) [ruleS1]
            [("auth#login#alice", 3)] requestBob).store (counterKey asciiLib ruleS1 requestS1)
          = counterValue [("auth#login#alice", 3)] (counterKey asciiLib ruleS1 requestS1)
      ∧ (IsRateLimited asciiLib (mapStore (fun _ => 0)) [ruleS1]
            (IsRateLimited asciiLib (mapStore (fun _ => 0)) [ruleS1]
              [("auth#login#alice", 3)] requestBob).store requestS1).resp
          = (IsRateLimited asciiLib (mapStore (fun _ => 0)) [ruleS1]
              [("auth#login#alice", 3)] requestS1).resp :=
  ⟨identity_isolation.1 ruleS1 "alice" "bob" (by decide),
    identity_isolation.2 asciiLib [ruleS1] (fun _ => 0) [("auth#login#alice", 3)] requestBob
      requestS1 ruleS1 ⟨"minute", 1, 3⟩ (by decide) (by decide) (by decide)⟩

/-! ## C20: when two buckets share a counter key -/

theorem getRedisKey_data (rule : Rule) (descriptors : List Descriptor) (userID : String)
    (h : descriptors ≠ []) :
    (getRedisKey rule descriptors userID).data
      = List.intercalate ['#']
          (rule.Domain.data :: descriptors.map (fun d => d.Value.data) ++ [userID.data]) := by
  rw [getRedisKey_eq_joinedBy rule descriptors userID h, joinedBy_data]
  simp [List.map_map, Function.comp_def]

theorem getRedisKey_components (rule : Rule) (descriptors : List Descriptor) (userID : String)
    (h : descriptors ≠ []) (hd : '#' ∉ rule.Domain.data)
    (hv : ∀ d ∈ descriptors, '#' ∉ d.Value.data) (hi : '#' ∉ userID.data) :
    (getRedisKey rule descriptors userID).data.splitOn '#'
      = rule.Domain.data :: descriptors.map (fun d => d.Value.data) ++ [userID.data] := by
  rw [getRedisKey_data rule descriptors userID h]
  apply List.splitOn_intercalate
  · intro l hl
    simp only [List.cons_append, List.mem_cons, List.mem_append, List.mem_map,
      List.mem_singleton, List.not_mem_nil, or_false] at hl
    rcases hl with hl | ⟨d, hdm, hl⟩ | hl
    · rw [hl]; exact hd
    · rw [← hl]; exact hv d hdm
    · rw [hl]; exact hi
  · simp

/-- C20, counterexample.  The rules `ruleHashValue` (one value `login#v2`),
`ruleTwoValues` (values `login`, `v2`) and `ruleS1` (value `login`) pass
`validateRules`.  The first two give the same key for identity `alice` although
their value lists differ; and `ruleS1` with the client-supplied identity
`v2#alice` gives the key of `ruleTwoValues` with identity `alice`. -/
theorem counter_key_collision :
    validateRules [ruleHashValue, ruleTwoValues, ruleS1] = none
      ∧ (ruleHashValue.Domain, ruleHashValue.Descriptors.map (fun d => d.Value), "alice")
          ≠ (ruleTwoValues.Domain, ruleTwoValues.Descriptors.map (fun d => d.Value), "alice")
      ∧ getRedisKey ruleHashValue ruleHashValue.Descriptors "alice"
          = getRedisKey ruleTwoValues ruleTwoValues.Descriptors "alice"
      ∧ (ruleS1.Domain, ruleS1.Descriptors.map (fun d => d.Value), "v2#alice")
          ≠ (ruleTwoValues.Domain, ruleTwoValues.Descriptors.map (fun d => d.Value), "alice")
      ∧ getRedisKey ruleS1 ruleS1.Descriptors "v2#alice"
          = getRedisKey ruleTwoValues ruleTwoValues.Descriptors "alice" := by
  decide

/-- C20, amended.  For two rules that pass `validateRules` and two identity
strings, none of whose domains, descriptor values and identities contains the
separator `#`: if the triples (domain, ordered list of descriptor values,
identity) differ, then `getRedisKey` produces different keys. -/
theorem counter_key_injective_without_separator (rule1 rule2 : Rule) (id1 id2 : String)
    (hval : validateRules [rule1, rule2] = none)
    (hd1 : '#' ∉ rule1.Domain.data) (hd2 : '#' ∉ rule2.Domain.data)
    (hv1 : ∀ d ∈ rule1.Descriptors, '#' ∉ d.Value.data)
    (hv2 : ∀ d ∈ rule2.Descriptors, '#' ∉ d.Value.data)
    (hi1 : '#' ∉ id1.data) (hi2 : '#' ∉ id2.data)
    (hne : (rule1.Domain, rule1.Descriptors.map (fun d => d.Value), id1)
      ≠ (rule2.Domain, rule2.Descriptors.map (fun d => d.Value), id2)) :
    getRedisKey rule1 rule1.Descriptors id1 ≠ getRedisKey rule2 rule2.Descriptors id2 := by
  intro hkey
  have hshape := (validateRules_eq_none_iff [rule1, rule2]).mp hval
  have hne1 : rule1.Descriptors ≠ [] := (hshape rule1 (by simp)).2.2.1
  have hne2 : rule2.Descriptors ≠ [] := (hshape rule2 (by simp)).2.2.1
  have h1 := getRedisKey_components rule1 rule1.Descriptors id1 hne1 hd1 hv1 hi1
  have h2 := getRedisKey_components rule2 rule2.Descriptors id2 hne2 hd2 hv2 hi2
  rw [hkey, h2] at h1
  simp only [List.cons_append, List.cons.injEq] at h1
  obtain ⟨hdom, hrest⟩ := h1
  have hlen : ([id2.data] : List (List Char)).length = [id1.data].length := rfl
  obtain ⟨hvals, hid⟩ := List.append_inj' hrest hlen
  apply hne
  have e1 : rule1.Domain = rule2.Domain := (String.ext hdom).symm
  have e3 : id1 = id2 := by
    simp only [List.cons.injEq, and_true] at hid
    exact (String.ext hid).symm
  have e2 : rule1.Descriptors.map (fun d => d.Value)
      = rule2.Descriptors.map (fun d => d.Value) := by
    have hinj : Function.Injective String.data := fun a b hab => String.ext hab
    apply List.map_injective_iff.mpr hinj
    simp only [List.map_map]
    exact hvals.symm
  rw [e1, e2, e3]

/-- C20, amended, at the rule of S1 and `ruleTwoValues` with identity `alice`. -/
theorem counter_key_injective_without_separator_witness :
    validateRules [ruleS1, ruleTwoValues] = none
      ∧ (ruleS1.Domain, ruleS1.Descriptors.map (fun d => d.Value), "alice")
          ≠ (ruleTwoValues.Domain, ruleTwoValues.Descriptors.map (fun d => d.Value), "alice")
      ∧ getRedisKey ruleS1 ruleS1.Descriptors "alice"
          ≠ getRedisKey ruleTwoValues ruleTwoValues.Descriptors "alice" :=
  ⟨by decide, by decide,
    counter_key_injective_without_separator ruleS1 ruleTwoValues "alice" "alice" (by decide)
      (by decide) (by decide) (by decide) (by decide) (by decide) (by decide) (by decide)⟩

/-! ## Maps: what `toLowerKeys` and the request map contain -/

theorem find_insert (m : GoMap) (k k2 v : String) :
    GoMap.find (GoMap.insert m k2 v) k = if k = k2 then some v else GoMap.find m k := by
  unfold GoMap.find GoMap.insert
  by_cases h : k = k2
  · subst h
    simp [List.lookup]
  · have hk : (k == k2) = false := by simpa using h
    rw [if_neg h]
    simp only [List.lookup, hk]
    induction m with
    | nil => rfl
    | cons e rest ih =>
      obtain ⟨ek, ev⟩ := e
      by_cases hek : ek = k2
      · subst hek
        simp [List.filter, List.lookup, hk, ih]
      · have hne : (ek != k2) = true := by simpa using hek
        simp only [List.filter, hne, List.lookup]
        rw [ih]

theorem find_foldl_insert_some (lib : GoLib) (m : GoMap) (k v : String) :
    ∀ acc : GoMap,
      GoMap.find (m.foldl (fun a e => GoMap.insert a (lib.ToLower e.1) e.2) acc) k = some v →
      (∃ e ∈ m, lib.ToLower e.1 = k ∧ e.2 = v) ∨ GoMap.find acc k = some v := by
  induction m with
  | nil => intro acc h; exact Or.inr h
  | cons e rest ih =>
    intro acc h
    rw [List.foldl_cons] at h
    rcases ih _ h with ⟨e2, he2, hk, hv⟩ | h2
    · exact Or.inl ⟨e2, List.mem_cons_of_mem _ he2, hk, hv⟩
    · rw [find_insert] at h2
      by_cases hk : k = lib.ToLower e.1
      · rw [if_pos hk] at h2
        exact Or.inl ⟨e, List.mem_cons_self _ _, hk.symm, Option.some.inj h2⟩
      · rw [if_neg hk] at h2
        exact Or.inr h2

theorem find_foldl_insert_isSome (lib : GoLib) (m : GoMap) (k : String) :
    ∀ acc : GoMap, ((∃ e ∈ m, lib.ToLower e.1 = k) ∨ (GoMap.find acc k).isSome = true) →
      (GoMap.find (m.foldl (fun a e => GoMap.insert a (lib.ToLower e.1) e.2) acc) k).isSome
        = true := by
  induction m with
  | nil =>
    intro acc h
    rcases h with ⟨e, he, -⟩ | h
    · exact absurd he (List.not_mem_nil e)
    · exact h
  | cons e rest ih =>
    intro acc h
    rw [List.foldl_cons]
    apply ih
    by_cases hk : k = lib.ToLower e.1
    · right
      rw [find_insert, if_pos hk]
      rfl
    · rcases h with ⟨e2, he2, hk2⟩ | h
      · rcases List.mem_cons.mp he2 with h3 | h3
        · subst h3
          exact absurd hk2.symm hk
        · exact Or.inl ⟨e2, h3, hk2⟩
      · right
        rw [find_insert, if_neg hk]
        exact h

theorem find_toLowerKeys_some (lib : GoLib) (m : GoMap) (k v : String)
    (h : GoMap.find (toLowerKeys lib m) k = some v) :
    ∃ e ∈ m, lib.ToLower e.1 = k ∧ e.2 = v := by
  rcases find_foldl_insert_some lib m k v [] h with h2 | h2
  · exact h2
  · simp [GoMap.find] at h2

theorem find_toLowerKeys_eq_none (lib : GoLib) (m : GoMap) (k : String)
    (h : ∀ e ∈ m, lib.ToLower e.1 ≠ k) : GoMap.find (toLowerKeys lib m) k = none := by
  cases hf : GoMap.find (toLowerKeys lib m) k with
  | none => rfl
  | some v =>
    obtain ⟨e, he, hk, -⟩ := find_toLowerKeys_some lib m k v hf
    exact absurd hk (h e he)

/-- When every attribute whose lower-cased name is `k` carries the value `v`,
and there is one, the lower-cased map holds `v` under `k`. -/
theorem find_toLowerKeys_of_unique (lib : GoLib) (m : GoMap) (k v : String)
    (hex : ∃ e ∈ m, lib.ToLower e.1 = k) (hall : ∀ e ∈ m, lib.ToLower e.1 = k → e.2 = v) :
    GoMap.find (toLowerKeys lib m) k = some v := by
  have hs := find_foldl_insert_isSome lib m k [] (Or.inl hex)
  cases hf : GoMap.find (toLowerKeys lib m) k with
  | none =>
    unfold toLowerKeys at hf
    rw [hf] at hs
    exact absurd hs (by simp)
  | some v2 =>
    obtain ⟨e, he, hk, hv⟩ := find_toLowerKeys_some lib m k v2 hf
    rw [← hv, hall e he hk]

theorem find_toLowerKeys_iff (lib : GoLib) (m : GoMap) (k v : String)
    (hdist : (m.map (fun e => lib.ToLower e.1)).Nodup) :
    GoMap.find (toLowerKeys lib m) k = some v ↔ ∃ e ∈ m, lib.ToLower e.1 = k ∧ e.2 = v := by
  constructor
  · exact find_toLowerKeys_some lib m k v
  · rintro ⟨e, he, hk, hv⟩
    apply find_toLowerKeys_of_unique lib m k v ⟨e, he, hk⟩
    intro e2 he2 hk2
    have := List.inj_on_of_nodup_map hdist he2 he (by rw [hk2, hk])
    rw [this, hv]

theorem matchDescriptorsLoop_eq_true_iff (M : GoMap) (ds : List Descriptor) :
    matchDescriptorsLoop M ds = true ↔ ∀ d ∈ ds, GoMap.find M d.Key = some d.Value := by
  induction ds with
  | nil => simp [matchDescriptorsLoop]
  | cons d rest ih =>
    rw [matchDescriptorsLoop]
    cases hf : GoMap.find M d.Key with
    | none => simp [hf]
    | some v =>
      by_cases hv : v = d.Value
      · subst hv
        simp [ih, hf]
      · have hne : (v != d.Value) = true := by simpa using hv
        simp [hne, hf, hv]

theorem matchDescriptorsLoop_congr (M1 M2 : GoMap) (ds : List Descriptor)
    (h : ∀ k, GoMap.find M1 k = GoMap.find M2 k) :
    matchDescriptorsLoop M1 ds = matchDescriptorsLoop M2 ds := by
  rw [Bool.eq_iff_iff, matchDescriptorsLoop_eq_true_iff, matchDescriptorsLoop_eq_true_iff]
  simp only [h]

/-! ## C12: the matcher against its reference definition -/

theorem requestMatches_iff_reference (lib : GoLib) (r : HttpHeader) (rule : Rule) :
    requestMatches lib r rule = true ↔ matchesReference lib r rule := by
  unfold requestMatches ruleApplies matchesReference matchDescriptors
  rw [Bool.and_eq_true, matchDescriptorsLoop_eq_true_iff]
  simp

theorem requestDescriptors_foldl (r : HttpHeader) :
    ∀ acc : GoMap, (r.map (fun e => e.1)).Nodup →
      (∀ e ∈ r, ∀ a ∈ acc, a.1 ≠ e.1) →
      r.foldl (fun descriptors e =>
          match e.2 with
          | v :: _ => GoMap.insert descriptors e.1 v
          | [] => descriptors) acc
        = (r.filterMap (fun e => e.2.head?.map (fun v => (e.1, v)))).reverse ++ acc := by
  induction r with
  | nil => intro acc _ _; rfl
  | cons e rest ih =>
    intro acc hnd hdisj
    rw [List.map_cons, List.nodup_cons] at hnd
    obtain ⟨hnot, hnd2⟩ := hnd
    rw [List.foldl_cons]
    cases hv : e.2 with
    | nil =>
      rw [ih acc hnd2 (fun e2 he2 => hdisj e2 (List.mem_cons_of_mem _ he2))]
      simp [List.filterMap_cons, hv]
    | cons v vs =>
      have hfilter : acc.filter (fun a => a.1 != e.1) = acc := by
        rw [List.filter_eq_self]
        intro a ha
        simpa using hdisj e (List.mem_cons_self _ _) a ha
      have hins : GoMap.insert acc e.1 v = (e.1, v) :: acc := by
        unfold GoMap.insert
        rw [hfilter]
      dsimp only
      rw [hins, ih ((e.1, v) :: acc) hnd2]
      · simp [List.filterMap_cons, hv]
      · intro e2 he2 a ha
        rcases List.mem_cons.mp ha with h | h
        · subst h
          intro heq
          exact hnot (List.mem_map.mpr ⟨e2, he2, heq.symm⟩)
        · exact hdisj e2 (List.mem_cons_of_mem _ he2) a h

theorem requestDescriptors_eq (r : HttpHeader) (hnd : (r.map (fun e => e.1)).Nodup) :
    requestDescriptors r
      = (r.filterMap (fun e => e.2.head?.map (fun v => (e.1, v)))).reverse := by
  unfold requestDescriptors
  rw [requestDescriptors_foldl r [] hnd (fun _ _ a ha => absurd ha (List.not_mem_nil a))]
  simp

theorem mem_requestDescriptors (r : HttpHeader) (hnd : (r.map (fun e => e.1)).Nodup)
    (name v : String) :
    (name, v) ∈ requestDescriptors r ↔ ∃ e ∈ r, e.1 = name ∧ e.2.head? = some v := by
  rw [requestDescriptors_eq r hnd]
  simp only [List.mem_reverse, List.mem_filterMap, Option.map_eq_some', Prod.mk.injEq]
  constructor
  · rintro ⟨e, he, w, hw, h1, h2⟩
    exact ⟨e, he, h1, by rw [hw, h2]⟩
  · rintro ⟨e, he, h1, h2⟩
    exact ⟨e, he, v, h2, h1, rfl⟩

theorem find_request_map_iff (lib : GoLib) (r : HttpHeader)
    (hdist : (r.map (fun e => lib.ToLower e.1)).Nodup) (k v : String) :
    GoMap.find (toLowerKeys lib (requestDescriptors r)) k = some v
      ↔ ∃ e ∈ r, lib.ToLower e.1 = k ∧ e.2.head? = some v := by
  have hnd : (r.map (fun e => e.1)).Nodup := by
    have h2 : r.map (fun e => lib.ToLower e.1) = (r.map (fun e => e.1)).map lib.ToLower := by
      simp [List.map_map, Function.comp_def]
    rw [h2] at hdist
    exact List.Nodup.of_map _ hdist
  have hinj : ∀ e1 ∈ r, ∀ e2 ∈ r, lib.ToLower e1.1 = lib.ToLower e2.1 → e1 = e2 :=
    fun e1 h1 e2 h2 h => List.inj_on_of_nodup_map hdist h1 h2 h
  constructor
  · intro h
    obtain ⟨e2, he2, hk, hv⟩ := find_toLowerKeys_some lib _ k v h
    obtain ⟨e, he, h1, h2⟩ := (mem_requestDescriptors r hnd e2.1 e2.2).mp (by simpa using he2)
    exact ⟨e, he, by rw [h1, hk], by rw [h2, hv]⟩
  · rintro ⟨e, he, hk, hv⟩
    apply find_toLowerKeys_of_unique
    · exact ⟨(e.1, v), (mem_requestDescriptors r hnd e.1 v).mpr ⟨e, he, rfl, hv⟩, hk⟩
    · intro e2 he2 hk2
      obtain ⟨e3, he3, h1, h2⟩ :=
        (mem_requestDescriptors r hnd e2.1 e2.2).mp (by simpa using he2)
      have : e3 = e := hinj e3 he3 e he (by rw [h1, hk2, hk])
      subst this
      rw [hv] at h2
      exact (Option.some.inj h2).symm

/-- C12.  (1) `IsRateLimited` returns the Unmatched response (`ErrNoMatchingRule`,
nil header, not limited) if and only if no rule of the set matches the request
in the sense of the reference definition `matchesReference`; (2) in that case
it makes no counter-store call and leaves the store as it was.  (3) A single
descriptor whose key is missing from the lower-cased request map, or present
with another value, disqualifies the rule.  (4) When the header names of the
request are pairwise distinct after lower-casing, the lower-cased request map
contains `k` with value `v` exactly when some header whose lower-cased name is
`k` has first value `v`. -/
theorem unmatched_iff_no_rule_matches {σ : Type} (lib : GoLib) (S : CounterStore σ)
    (rules : List Rule) (s : σ) (r : HttpHeader) :
    ((IsRateLimited lib S rules s r).resp = ⟨none, false, some .ErrNoMatchingRule⟩
        ↔ ∀ rule ∈ rules, ¬ matchesReference lib r rule)
      ∧ ((∀ rule ∈ rules, ¬ matchesReference lib r rule) →
          IsRateLimited lib S rules s r = ⟨⟨none, false, some .ErrNoMatchingRule⟩, s, []⟩)
      ∧ (∀ rule ∈ rules, ∀ d ∈ rule.Descriptors,
          GoMap.find (toLowerKeys lib (requestDescriptors r)) d.Key ≠ some d.Value →
          ¬ matchesReference lib r rule)
      ∧ ((r.map (fun e => lib.ToLower e.1)).Nodup →
          ∀ k v, GoMap.find (toLowerKeys lib (requestDescriptors r)) k = some v
            ↔ ∃ e ∈ r, lib.ToLower e.1 = k ∧ e.2.head? = some v) := by
  have hnone : (∀ rule ∈ rules, ¬ matchesReference lib r rule) →
      IsRateLimited lib S rules s r = ⟨⟨none, false, some .ErrNoMatchingRule⟩, s, []⟩ := by
    intro h
    have hm : ∀ rule ∈ rules, requestMatches lib r rule = false := by
      intro rule hr
      cases hq : requestMatches lib r rule with
      | false => rfl
      | true => exact absurd ((requestMatches_iff_reference lib r rule).mp hq) (h rule hr)
    rw [IsRateLimited_eq, selectedRule_eq_none lib r rules
      (fun x hx hxm => by rw [hm x hx] at hxm; exact absurd hxm (by simp))]
    have hany : rules.any (requestMatches lib r) = false := by
      rw [List.any_eq_false]
      intro x hx
      simp [hm x hx]
    simp [hany]
  refine ⟨⟨?_, fun h => by rw [hnone h]⟩, hnone, ?_, ?_⟩
  · intro hresp rule hr href
    have hm := (requestMatches_iff_reference lib r rule).mpr href
    rw [IsRateLimited_eq] at hresp
    cases hsel : selectedRule lib rules r with
    | none =>
      rw [hsel] at hresp
      have hany : rules.any (requestMatches lib r) = true :=
        List.any_eq_true.mpr ⟨rule, hr, hm⟩
      simp [hany] at hresp
    | some p =>
      obtain ⟨rule2, rl⟩ := p
      rw [hsel] at hresp
      rcases limitBranch_resp_cases S s rule2 rl (HttpHeader.Get lib r rule2.BasedOn)
        with h | ⟨h0, h⟩ | ⟨h0, -, h⟩ <;> rw [h] at hresp <;> simp at hresp
  · intro rule _ d hd hne href
    exact hne (href.2 d hd)
  · intro hdist k v
    exact find_request_map_iff lib r hdist k v

/-- C12 at scenario S3 (rule of S1, request with domain `other`): no rule
matches and the response is Unmatched; the request of S1 matches the rule. -/
theorem unmatched_iff_no_rule_matches_witness :
    (∀ rule ∈ [ruleS1], ¬ matchesReference asciiLib requestOther rule)
      ∧ IsRateLimited asciiLib downStore [ruleS1] () requestOther
          = ⟨⟨none, false, some .ErrNoMatchingRule⟩, (), []⟩
      ∧ matchesReference asciiLib requestS1 ruleS1 :=
  ⟨by decide,
    (unmatched_iff_no_rule_matches asciiLib downStore [ruleS1] () requestOther).2.1
      (by decide),
    by decide⟩

/-! ## C13: descriptor keys are compared as written -/

/-- C14.  Let `m` and `m2` be two request attribute maps such that `m2` is
obtained from `m` by changing only the letter case of names: after
lower-casing the names both hold the same (name, value) pairs, in whatever
iteration order.  If the names of `m` are pairwise distinct after
lower-casing, `matchDescriptors` gives the same result on both, for every
descriptor list. -/
theorem header_casing_irrelevant (lib : GoLib) (descriptors : List Descriptor)
    (m m2 : GoMap)
    (hcase : (m.map (fun e => (lib.ToLower e.1, e.2))).Perm
      (m2.map (fun e => (lib.ToLower e.1, e.2))))
    (hdist : (m.map (fun e => lib.ToLower e.1)).Nodup) :
    matchDescriptors lib descriptors m = matchDescriptors lib descriptors m2 := by
  have hnames : (m.map (fun e => lib.ToLower e.1)).Perm (m2.map (fun e => lib.ToLower e.1)) := by
    have h := hcase.map (fun p => p.1)
    simpa [List.map_map, Function.comp_def] using h
  have hdist2 : (m2.map (fun e => lib.ToLower e.1)).Nodup := hnames.nodup_iff.mp hdist
  have hmem : ∀ k v, (∃ e ∈ m, lib.ToLower e.1 = k ∧ e.2 = v)
      ↔ (∃ e ∈ m2, lib.ToLower e.1 = k ∧ e.2 = v) := by
    intro k v
    have h := hcase.mem_iff (a := (k, v))
    simpa [List.mem_map, Prod.mk.injEq] using h
  unfold matchDescriptors
  apply matchDescriptorsLoop_congr
  intro k
  apply Option.ext
  intro v
  rw [Option.mem_def, Option.mem_def, find_toLowerKeys_iff lib m k v hdist,
    find_toLowerKeys_iff lib m2 k v hdist2]
  exact hmem k v

/-- C14 at the names of scenario S1 in canonical casing and in another casing
and order. -/
theorem header_casing_irrelevant_witness :
    (([("Endpoint", "login"), ("User_id", "alice")] : GoMap).map
        (fun e => asciiLib.ToLower e.1)).Nodup
      ∧ matchDescriptors asciiLib ruleS1.Descriptors [("Endpoint", "login"), ("User_id", "alice")]
          = matchDescriptors asciiLib ruleS1.Descriptors
              [("USER_ID", "alice"), ("endpoint", "login")] :=
  ⟨by decide,
    header_casing_irrelevant asciiLib ruleS1.Descriptors
      [("Endpoint", "login"), ("User_id", "alice")] [("USER_ID", "alice"), ("endpoint", "login")]
      (by decide) (by decide)⟩

/-! ## C19: the reload and the readers' lock -/

/-- C19, the code at the failing schedule.  The assignment of `LoadRules` never
waits, whatever locks are held.  In particular, starting from the rule set
`[ruleS1]` with no lock held: a request enters `IsRateLimited` (read lock
taken, one reader); the reload then replaces the rule set by `[ruleNoLimit]`
while that read lock is still held; the request leaves afterwards.  The write
lock is never taken. -/
theorem reload_not_excluded_by_read_lock :
    (∀ (st : SyncState) (updatedRules : List Rule),
        st.run (LoadRulesOps updatedRules) = some { st with rules := updatedRules })
      ∧ SyncState.run ⟨[ruleS1], 0, false⟩ IsRateLimitedEnter = some ⟨[ruleS1], 1, false⟩
      ∧ SyncState.run ⟨[ruleS1], 1, false⟩ (LoadRulesOps [ruleNoLimit])
          = some ⟨[ruleNoLimit], 1, false⟩
      ∧ SyncState.run ⟨[ruleS1], 0, false⟩
          (IsRateLimitedEnter ++ LoadRulesOps [ruleNoLimit] ++ IsRateLimitedLeave)
          = some ⟨[ruleNoLimit], 0, false⟩
      ∧ SyncOp.Lock ∉ IsRateLimitedEnter ++ LoadRulesOps [ruleNoLimit] ++ IsRateLimitedLeave
      ∧ SyncState.step ⟨[ruleS1], 1, false⟩ .Lock = none := by
  refine ⟨fun st updatedRules => rfl, by decide, by decide, by decide, by decide, by decide⟩

end Limiter
